import Mathlib

/-!
Verification of the request/cookie/region core of the `hoyolab-api` client
library against its natural-language specification.

The JavaScript source (bundled in `dist/index.d.ts` and
`src/modules/redeem/redeem.ts`) is shallowly embedded below:

* JavaScript objects built by the cookie parser are modelled as
  insertion-ordered association lists (`JsObj`), since both key order
  (`Object.entries` iteration during serialization) and JS truthiness matter.
* JavaScript numbers produced by `parseInt(s, 10)` are modelled as exact
  integers or `NaN` (`JsInt`).  (Double rounding above 2^53 is not modelled;
  no claim depends on it.)
* `decodeURIComponent`, `String.prototype.trim`, `String.prototype.split`
  and `parseInt` are implemented from their ECMAScript semantics.
* The MD5 cache key `md5(JSON.stringify({url, method, body, params}))` is
  modelled by the structural tuple itself (hash collisions, an accepted
  correctness risk in the source, are abstracted away).
* `axios` results are supplied by an oracle `Nat → TransportResult`
  (one entry per attempt); wall-clock time is a `Nat` counter of seconds that
  advances only at the explicit 1-second retry delay; `generateDS`'s
  time-and-randomness dependence is abstracted into a `dsGen : Nat → String`
  parameter.
-/

/-- A JavaScript number as produced by `parseInt(·, 10)`: `NaN` or an exact
integer. -/
inductive JsInt where
  | nan : JsInt
  | val (n : Int) : JsInt
deriving DecidableEq, Repr

/-- A JavaScript value stored in a cookie object: `undefined`, a string, or a
number. -/
inductive JsVal where
  | undef : JsVal
  | str (s : String) : JsVal
  | num (n : JsInt) : JsVal
deriving DecidableEq, Repr

/-- JavaScript truthiness for the values above: `undefined`, `""`, `0` and
`NaN` are falsy. -/
def truthy : JsVal → Bool
  | .undef => false
  | .str s => s ≠ ""
  | .num .nan => false
  | .num (.val n) => n ≠ 0

/-- A JavaScript object, modelled as an insertion-ordered association list
with unique keys. -/
abbrev JsObj := List (String × JsVal)

/-- Property read `o[k]`: the stored value, or `undefined` when absent. -/
def objGet (o : JsObj) (k : String) : JsVal :=
  match o.find? (fun e => e.1 = k) with
  | some e => e.2
  | none => (.undef)

/-- Property write `o[k] = v`: updates an existing key in place, otherwise
appends (JS property insertion order). -/
def objSet (o : JsObj) (k : String) (v : JsVal) : JsObj :=
  if o.any (fun e => e.1 = k) then
    o.map (fun e => if e.1 = k then (k, v) else e)
  else
    o ++ [(k, v)]

theorem objGet_nil (k : String) : objGet [] k = .undef := rfl

theorem objGet_cons (e : String × JsVal) (o : JsObj) (k : String) :
    objGet (e :: o) k = if e.1 = k then e.2 else objGet o k := by
  by_cases h : e.1 = k <;> simp [objGet, List.find?, h]

theorem objSet_cons (e : String × JsVal) (o : JsObj) (k : String) (v : JsVal) :
    objSet (e :: o) k v =
      if e.1 = k then (k, v) :: o.map (fun e => if e.1 = k then (k, v) else e)
      else e :: objSet o k v := by
  by_cases h : e.1 = k <;> simp [objSet, h] <;> split <;> simp_all

theorem objGet_objSet_same (o : JsObj) (k : String) (v : JsVal) :
    objGet (objSet o k v) k = v := by
  induction o with
  | nil => simp [objSet, objGet]
  | cons e o ih =>
    rw [objSet_cons]
    by_cases h : e.1 = k
    · simp [h, objGet_cons]
    · simp [h, objGet_cons, ih]

theorem objGet_map_set (o : JsObj) (k k' : String) (v : JsVal) (hk : k ≠ k') :
    objGet (o.map (fun e => if e.1 = k then (k, v) else e)) k' = objGet o k' := by
  induction o with
  | nil => rfl
  | cons e o ih =>
    by_cases h : e.1 = k
    · simp only [List.map_cons, if_pos h, objGet_cons]
      rw [if_neg (by simpa using hk), if_neg (by rw [h]; exact hk)]
      exact ih
    · simp only [List.map_cons, if_neg h, objGet_cons]
      by_cases h2 : e.1 = k' <;> simp [h2, ih]

theorem objGet_objSet_other (o : JsObj) (k k' : String) (v : JsVal)
    (hk : k ≠ k') : objGet (objSet o k v) k' = objGet o k' := by
  induction o with
  | nil => simp [objSet, objGet_cons, objGet_nil, hk]
  | cons e o ih =>
    rw [objSet_cons]
    by_cases h : e.1 = k
    · rw [if_pos h, objGet_cons, if_neg (by simpa using hk)]
      rw [objGet_cons, if_neg (by rw [h]; exact hk)]
      exact objGet_map_set o k k' v hk
    · rw [if_neg h, objGet_cons, objGet_cons, ih]

theorem map_set_map_set_same (o : JsObj) (k : String) (v w : JsVal) :
    (o.map (fun e => if e.1 = k then (k, v) else e)).map
        (fun e => if e.1 = k then (k, w) else e) =
      o.map (fun e => if e.1 = k then (k, w) else e) := by
  rw [List.map_map]
  apply List.map_congr_left
  intro x _
  by_cases hx : x.1 = k <;> simp [Function.comp, hx]

theorem objSet_objSet_same (o : JsObj) (k : String) (v w : JsVal) :
    objSet (objSet o k v) k w = objSet o k w := by
  induction o with
  | nil => simp [objSet]
  | cons e o ih =>
    by_cases h : e.1 = k
    · rw [objSet_cons, if_pos h, objSet_cons]
      simp only [map_set_map_set_same]
      rw [objSet_cons, if_pos h]
      simp
    · rw [objSet_cons, if_neg h, objSet_cons, if_neg h, objSet_cons, if_neg h,
        ih]

/-! ## ECMAScript string primitives -/

/-- The ECMAScript whitespace/line-terminator set used by `trim` and
`parseInt`. -/
def jsWhitespace (c : Char) : Bool :=
  c.toNat = 0x20 ∨ c.toNat = 0x09 ∨ c.toNat = 0x0a ∨ c.toNat = 0x0d ∨
  c.toNat = 0x0b ∨ c.toNat = 0x0c ∨ c.toNat = 0xa0 ∨ c.toNat = 0x1680 ∨
  (0x2000 ≤ c.toNat ∧ c.toNat ≤ 0x200a) ∨
  c.toNat = 0x2028 ∨ c.toNat = 0x2029 ∨ c.toNat = 0x202f ∨
  c.toNat = 0x205f ∨ c.toNat = 0x3000 ∨ c.toNat = 0xfeff

/-- `String.prototype.trim`: strip JS whitespace from both ends. -/
def trimJS (s : String) : String :=
  ⟨((s.data.dropWhile jsWhitespace).reverse.dropWhile jsWhitespace).reverse⟩

/-- `String.prototype.split` with a one-character separator, on char lists:
splitting never yields `[]` and keeps empty fragments, as in JS. -/
def splitChL (sep : Char) : List Char → List (List Char)
  | [] => [[]]
  | c :: cs =>
    let r := splitChL sep cs
    if c = sep then [] :: r
    else (c :: r.headD []) :: r.tail

/-- `String.prototype.split` with a one-character separator. -/
def splitCh (sep : Char) (s : String) : List String :=
  (splitChL sep s.data).map (fun cs => ⟨cs⟩)

theorem splitChL_ne_nil (sep : Char) (cs : List Char) :
    splitChL sep cs ≠ [] := by
  cases cs with
  | nil => simp [splitChL]
  | cons c cs =>
    simp only [splitChL]
    split <;> simp

/-- Digit character for a value below 10 (the relevant slice of JS number
formatting); values `≥ 9` all map to `9` but the function is only applied
to digit values. -/
def jsDigitChar : Nat → Char
  | 0 => '0' | 1 => '1' | 2 => '2' | 3 => '3' | 4 => '4'
  | 5 => '5' | 6 => '6' | 7 => '7' | 8 => '8' | _ => '9'

/-- Decimal digits, least significant first, driven by a fuel argument that
is always instantiated with the number itself (which bounds the digit
count). -/
def natDigitsGo : Nat → Nat → List Char
  | 0, n => [jsDigitChar n]
  | fuel + 1, n =>
    if n < 10 then [jsDigitChar n]
    else jsDigitChar (n % 10) :: natDigitsGo fuel (n / 10)

theorem natDigitsGo_fuel (f1 : Nat) : ∀ f2 n : Nat, n ≤ f1 → n ≤ f2 →
    natDigitsGo f1 n = natDigitsGo f2 n := by
  induction f1 with
  | zero =>
    intro f2 n h1 _
    have hn : n = 0 := by omega
    subst hn
    cases f2 with
    | zero => rfl
    | succ f2 => simp [natDigitsGo]
  | succ f1 ih =>
    intro f2 n h1 h2
    cases f2 with
    | zero =>
      have hn : n = 0 := by omega
      subst hn
      simp [natDigitsGo]
    | succ f2 =>
      simp only [natDigitsGo]
      by_cases h : n < 10
      · simp [h]
      · rw [if_neg h, if_neg h]
        have hlt : n / 10 < n := Nat.div_lt_self (by omega) (by omega)
        rw [ih f2 (n / 10) (by omega) (by omega)]

/-- Decimal digits of a natural number, least significant first. -/
def natDigitsRev (n : Nat) : List Char := natDigitsGo n n

theorem natDigitsRev_eq (n : Nat) :
    natDigitsRev n = if n < 10 then [jsDigitChar n]
      else jsDigitChar (n % 10) :: natDigitsRev (n / 10) := by
  by_cases h : n < 10
  · rw [if_pos h]
    unfold natDigitsRev
    cases hn : n with
    | zero => rfl
    | succ m => simp [natDigitsGo, hn ▸ h]
  · rw [if_neg h]
    unfold natDigitsRev
    cases hn : n with
    | zero => omega
    | succ m =>
      simp only [natDigitsGo, if_neg (hn ▸ h)]
      have hle : (m + 1) / 10 ≤ m := by omega
      rw [natDigitsGo_fuel m ((m + 1) / 10) ((m + 1) / 10) hle (le_refl _)]

/-- `Number.prototype.toString` for a natural number. -/
def jsNatToString (n : Nat) : String := ⟨(natDigitsRev n).reverse⟩

/-- `Number.prototype.toString` for an integer. -/
def jsIntToString (n : Int) : String :=
  if n < 0 then ⟨'-' :: (natDigitsRev n.natAbs).reverse⟩ else jsNatToString n.natAbs

/-- Numeric value of a decimal digit character, if it is one. -/
def digitVal? (c : Char) : Option Nat :=
  if '0' ≤ c ∧ c ≤ '9' then some (c.toNat - 48) else none

/-- Fold decimal digit characters into a number (most significant first). -/
def foldDigits (acc : Nat) : List Char → Nat
  | [] => acc
  | c :: cs => foldDigits (acc * 10 + (c.toNat - 48)) cs

/-- `parseInt(s, 10)`: skip leading JS whitespace, read an optional sign and
then a maximal run of decimal digits; `NaN` when no digit is found.
Trailing garbage is ignored, as in JS. -/
def parseIntJS (s : String) : JsInt :=
  let cs := s.data.dropWhile jsWhitespace
  let neg := cs.headD ' ' = '-'
  let cs1 := if cs.headD ' ' = '-' ∨ cs.headD ' ' = '+' then cs.tail else cs
  let digits := cs1.takeWhile (fun c => '0' ≤ c ∧ c ≤ '9')
  if digits = [] then .nan
  else
    let m : Int := Int.ofNat (foldDigits 0 digits)
    .val (if neg then -m else m)

/-! ## `decodeURIComponent` -/

/-- Value of a hexadecimal digit character, if it is one. -/
def hexVal (c : Char) : Option Nat :=
  if '0' ≤ c ∧ c ≤ '9' then some (c.toNat - 48)
  else if 'A' ≤ c ∧ c ≤ 'F' then some (c.toNat - 55)
  else if 'a' ≤ c ∧ c ≤ 'f' then some (c.toNat - 87)
  else none

/-- Decode one `%XX` escape cluster of `decodeURIComponent` (the leading `%`
already consumed): returns the decoded character and the remaining input.
Multi-byte escapes are decoded as strict UTF-8 (overlong forms, surrogates
and out-of-range code points rejected); `none` models the thrown
`URIError`. -/
def decodePct (rest : List Char) : Option (Char × List Char) :=
  match rest with
  | h1 :: h2 :: rest1 =>
    match hexVal h1, hexVal h2 with
    | some a1, some b1 =>
      let byte1 := 16 * a1 + b1
      if byte1 < 0x80 then
        some (Char.ofNat byte1, rest1)
      else if 0xc2 ≤ byte1 ∧ byte1 ≤ 0xdf then
        match rest1 with
        | '%' :: h3 :: h4 :: rest2 =>
          match hexVal h3, hexVal h4 with
          | some a2, some b2 =>
            let byte2 := 16 * a2 + b2
            if 0x80 ≤ byte2 ∧ byte2 ≤ 0xbf then
              some (Char.ofNat ((byte1 - 0xc0) * 0x40 + (byte2 - 0x80)), rest2)
            else none
          | _, _ => none
        | _ => none
      else if 0xe0 ≤ byte1 ∧ byte1 ≤ 0xef then
        match rest1 with
        | '%' :: h3 :: h4 :: '%' :: h5 :: h6 :: rest2 =>
          match hexVal h3, hexVal h4, hexVal h5, hexVal h6 with
          | some a2, some b2, some a3, some b3 =>
            let byte2 := 16 * a2 + b2
            let byte3 := 16 * a3 + b3
            let cp := (byte1 - 0xe0) * 0x1000 + (byte2 - 0x80) * 0x40 +
              (byte3 - 0x80)
            if 0x80 ≤ byte2 ∧ byte2 ≤ 0xbf ∧ 0x80 ≤ byte3 ∧ byte3 ≤ 0xbf ∧
                0x800 ≤ cp ∧ (cp < 0xd800 ∨ 0xdfff < cp) then
              some (Char.ofNat cp, rest2)
            else none
          | _, _, _, _ => none
        | _ => none
      else if 0xf0 ≤ byte1 ∧ byte1 ≤ 0xf4 then
        match rest1 with
        | '%' :: h3 :: h4 :: '%' :: h5 :: h6 :: '%' :: h7 :: h8 :: rest2 =>
          match hexVal h3, hexVal h4, hexVal h5, hexVal h6, hexVal h7,
              hexVal h8 with
          | some a2, some b2, some a3, some b3, some a4, some b4 =>
            let byte2 := 16 * a2 + b2
            let byte3 := 16 * a3 + b3
            let byte4 := 16 * a4 + b4
            let cp := (byte1 - 0xf0) * 0x40000 + (byte2 - 0x80) * 0x1000 +
              (byte3 - 0x80) * 0x40 + (byte4 - 0x80)
            if 0x80 ≤ byte2 ∧ byte2 ≤ 0xbf ∧ 0x80 ≤ byte3 ∧ byte3 ≤ 0xbf ∧
                0x80 ≤ byte4 ∧ byte4 ≤ 0xbf ∧ 0x10000 ≤ cp ∧
                cp ≤ 0x10ffff then
              some (Char.ofNat cp, rest2)
            else none
          | _, _, _, _, _, _ => none
        | _ => none
      else none
    | _, _ => none
  | _ => none

/-- `decodeURIComponent` on a character list, driven by a fuel argument that
is always instantiated with the input length (each escape cluster consumes
at least two characters, so the fuel never runs out on the real entry
point). Literal characters pass through; `none` models the thrown
`URIError`. -/
def decodeGo : Nat → List Char → Option (List Char)
  | _, [] => some []
  | 0, _ :: _ => none
  | fuel + 1, c :: rest =>
    if c = '%' then
      match decodePct rest with
      | some (ch, rest2) => (decodeGo fuel rest2).map (ch :: ·)
      | none => none
    else (decodeGo fuel rest).map (c :: ·)

/-- `decodeURIComponent` on a character list. -/
def decodeURIL (cs : List Char) : Option (List Char) :=
  decodeGo cs.length cs

/-- `decodeURIComponent(s)`; `none` models the thrown `URIError`. -/
def decodeURIComponentJS (s : String) : Option String :=
  (decodeURIL s.data).map (fun cs => ⟨cs⟩)

/-- `decodeURIComponent(v)` applied to a possibly-`undefined` split result:
JS coerces `undefined` to the string `"undefined"` before decoding. -/
def decodeArgJS : Option String → Option String
  | none => some "undefined"
  | some s => decodeURIComponentJS s

theorem decodeURIL_cons_no_pct (c : Char) (rest : List Char) (hc : c ≠ '%') :
    decodeURIL (c :: rest) = (decodeURIL rest).map (c :: ·) := by
  show decodeGo (rest.length + 1) (c :: rest) = _
  rw [decodeGo, if_neg hc]
  rfl

theorem decodeURIL_no_pct (cs : List Char) (h : ∀ c ∈ cs, c ≠ '%') :
    decodeURIL cs = some cs := by
  induction cs with
  | nil => rfl
  | cons c rest ih =>
    rw [decodeURIL_cons_no_pct c rest (h c (by simp)),
      ih (fun x hx => h x (by simp [hx]))]
    rfl

/-! ## Number formatting / parsing facts -/

theorem jsDigitChar_bounds (n : Nat) (h : n < 10) :
    '0' ≤ jsDigitChar n ∧ jsDigitChar n ≤ '9' := by
  interval_cases n <;> decide

theorem jsDigitChar_toNat (n : Nat) (h : n < 10) :
    (jsDigitChar n).toNat = 48 + n := by
  interval_cases n <;> decide

theorem natDigitsRev_mem_digit (n : Nat) :
    ∀ c ∈ natDigitsRev n, '0' ≤ c ∧ c ≤ '9' := by
  induction n using Nat.strong_induction_on with
  | _ n ih =>
    intro c hc
    rw [natDigitsRev_eq] at hc
    by_cases h : n < 10
    · rw [if_pos h] at hc
      simp at hc
      subst hc
      exact jsDigitChar_bounds n h
    · rw [if_neg h] at hc
      rcases List.mem_cons.mp hc with h1 | h1
      · subst h1
        exact jsDigitChar_bounds _ (Nat.mod_lt n (by omega))
      · exact ih (n / 10) (Nat.div_lt_self (by omega) (by omega)) c h1

theorem not_jsWhitespace_of_range (c : Char) (h1 : 33 ≤ c.toNat)
    (h2 : c.toNat ≤ 0x9f) : jsWhitespace c = false := by
  simp only [jsWhitespace, decide_eq_false_iff_not]
  omega

theorem digit_not_jsWhitespace (c : Char) (h : '0' ≤ c ∧ c ≤ '9') :
    jsWhitespace c = false := by
  obtain ⟨h1, h2⟩ := h
  have l1 : 48 ≤ c.toNat := h1
  have l2 : c.toNat ≤ 57 := h2
  exact not_jsWhitespace_of_range c (by omega) (by omega)

theorem foldDigits_append (acc : Nat) (xs : List Char) (c : Char) :
    foldDigits acc (xs ++ [c]) = foldDigits acc xs * 10 + (c.toNat - 48) := by
  induction xs generalizing acc with
  | nil => rfl
  | cons x xs ih => exact ih (acc * 10 + (x.toNat - 48))

theorem natDigitsRev_ne_nil (n : Nat) : natDigitsRev n ≠ [] := by
  rw [natDigitsRev_eq]
  split <;> simp

theorem foldDigits_single (acc : Nat) (c : Char) :
    foldDigits acc [c] = acc * 10 + (c.toNat - 48) := rfl

theorem foldDigits_natDigitsRev (n : Nat) :
    ∀ acc : Nat, foldDigits acc (natDigitsRev n).reverse =
      acc * 10 ^ (natDigitsRev n).length + n := by
  induction n using Nat.strong_induction_on with
  | _ n ih =>
    intro acc
    rw [natDigitsRev_eq]
    by_cases h : n < 10
    · rw [if_pos h, List.reverse_singleton, foldDigits_single,
        jsDigitChar_toNat n h]
      simp only [List.length_singleton, pow_one]
      omega
    · rw [if_neg h]
      have hd : n / 10 < n := Nat.div_lt_self (by omega) (by omega)
      have hmod : (jsDigitChar (n % 10)).toNat - 48 = n % 10 := by
        rw [jsDigitChar_toNat _ (Nat.mod_lt n (by omega))]; omega
      rw [List.reverse_cons, foldDigits_append, ih (n / 10) hd acc, hmod,
        List.length_cons, pow_succ]
      have hdm : n / 10 * 10 + n % 10 = n := by omega
      calc (acc * 10 ^ (natDigitsRev (n / 10)).length + n / 10) * 10 + n % 10
          = acc * (10 ^ (natDigitsRev (n / 10)).length * 10) +
            (n / 10 * 10 + n % 10) := by ring
        _ = acc * (10 ^ (natDigitsRev (n / 10)).length * 10) + n := by
            rw [hdm]

theorem takeWhile_all {p : Char → Bool} (l : List Char)
    (h : ∀ c ∈ l, p c = true) : l.takeWhile p = l := by
  induction l with
  | nil => rfl
  | cons c cs ih =>
    rw [List.takeWhile_cons, h c (by simp), ih (fun x hx => h x (by simp [hx]))]
    simp

theorem parseIntJS_all_digits (l : List Char) (hne : l ≠ [])
    (hdig : ∀ c ∈ l, '0' ≤ c ∧ c ≤ '9') :
    parseIntJS ⟨l⟩ = .val (Int.ofNat (foldDigits 0 l)) := by
  obtain ⟨d, ds, rfl⟩ : ∃ d ds, l = d :: ds := by
    cases l with
    | nil => exact absurd rfl hne
    | cons d ds => exact ⟨d, ds, rfl⟩
  have hd := hdig d (by simp)
  have hd48 : 48 ≤ d.toNat := hd.1
  have hd57 : d.toNat ≤ 57 := hd.2
  have hminus : ¬ d = '-' := by
    intro h; rw [h] at hd48; exact absurd hd48 (by decide)
  have hplus : ¬ d = '+' := by
    intro h; rw [h] at hd48; exact absurd hd48 (by decide)
  simp only [parseIntJS, List.dropWhile_cons, digit_not_jsWhitespace d hd,
    Bool.false_eq_true, if_false, List.headD_cons]
  simp only [if_neg (show ¬(d = '-' ∨ d = '+') from by simp [hminus, hplus]),
    if_neg hminus]
  rw [takeWhile_all (d :: ds) (fun c hc => by simp [hdig c hc])]
  rw [if_neg (by simp)]

theorem parseIntJS_jsIntToString (n : Int) :
    parseIntJS (jsIntToString n) = .val n := by
  by_cases hn : n < 0
  · rw [jsIntToString, if_pos hn]
    have hdig := natDigitsRev_mem_digit n.natAbs
    have hne := natDigitsRev_ne_nil n.natAbs
    obtain ⟨d, ds, hrev⟩ : ∃ d ds, (natDigitsRev n.natAbs).reverse = d :: ds := by
      cases hr : (natDigitsRev n.natAbs).reverse with
      | nil => exact absurd (by simpa using congrArg List.length hr) (by simp [hne])
      | cons d ds => exact ⟨d, ds, rfl⟩
    have hmw : jsWhitespace '-' = false := by decide
    simp only [parseIntJS, List.dropWhile_cons, hmw, Bool.false_eq_true,
      if_false, List.headD_cons, List.tail_cons, eq_self_iff_true, true_or,
      if_true, hrev]
    rw [takeWhile_all (d :: ds) ?hall]
    case hall =>
      intro c hc
      have hcm : c ∈ (natDigitsRev n.natAbs).reverse := by rw [hrev]; exact hc
      simp [hdig c (by simpa using hcm)]
    rw [if_neg (by simp), ← hrev]
    have hfd := foldDigits_natDigitsRev n.natAbs 0
    simp only [zero_mul, zero_add] at hfd
    rw [hfd]
    congr 1
    have hab : (n.natAbs : Int) = -n := Int.ofNat_natAbs_of_nonpos (le_of_lt hn)
    simp only [Int.ofNat_eq_natCast]
    omega
  · rw [jsIntToString, if_neg hn, jsNatToString]
    rw [parseIntJS_all_digits _ (by simp [natDigitsRev_ne_nil])
      (fun c hc => natDigitsRev_mem_digit n.natAbs c (by simpa using hc))]
    have hfd := foldDigits_natDigitsRev n.natAbs 0
    simp only [zero_mul, zero_add] at hfd
    rw [hfd]
    congr 1
    have hab : (n.natAbs : Int) = n := Int.natAbs_of_nonneg (not_lt.mp hn)
    simp only [Int.ofNat_eq_natCast]
    omega

/-! ## Cookie helpers (`cookie.helper.ts`, `language.ts`) -/

/-- `word.charAt(0).toUpperCase() + word.slice(1)`. -/
def capitalizeJS (w : String) : String :=
  match w.data with
  | [] => ""
  | c :: cs => ⟨c.toUpper :: cs⟩

/-- `toCamelCase` from `cookie.helper.ts`: split on `_`, keep the first word,
capitalize the rest, concatenate. -/
def toCamelCase (str : String) : String :=
  match splitCh '_' str with
  | [] => ""
  | w :: ws => w ++ String.join (ws.map capitalizeJS)

/-- `Array.prototype.join(sep)`. -/
def joinSep (sep : String) : List String → String
  | [] => ""
  | [x] => x
  | x :: y :: xs => x ++ sep ++ joinSep sep (y :: xs)

/-- `toSnakeCase` from `cookie.helper.ts`: insert a space before each ASCII
uppercase letter, split on spaces, join with `_`, lowercase. -/
def toSnakeCase (text : String) : String :=
  let expanded : List Char :=
    text.data.flatMap (fun c => if c.isUpper then [' ', c] else [c])
  let joined := joinSep "_" ((splitChL ' ' expanded).map (fun cs => ⟨cs⟩))
  ⟨joined.data.map Char.toLower⟩

/-- The values of `LanguageEnum` (`language.interface.ts`). -/
def langCodes : List String :=
  ["zh-cn", "zh-tw", "de-de", "en-us", "es-es", "fr-fr", "id-id", "it-it",
   "ja-jp", "ko-kr", "pt-pt", "ru-ru", "th-th", "tr-tr", "vi-vn"]

/-- `Language.parseLang` applied to a string: a falsy (empty) or unknown code
defaults to `"en-us"`; a known enum value is returned unchanged. -/
def parseLang (lang : String) : String :=
  if lang = "" then "en-us"
  else if lang ∈ langCodes then lang else "en-us"

/-! ## `Cookie.parseCookieString` and `Cookie.parseCookie` -/

/-- Error outcome of cookie-string parsing: a thrown `HoyolabError` or the
`URIError` thrown by `decodeURIComponent`. -/
inductive CookieErr where
  | hoyolab (msg : String)
  | uri
deriving DecidableEq, Repr

/-- The recognized cookie keys, in source order. -/
def cookieStringKeys : List String :=
  ["ltoken", "ltuid", "account_id", "cookie_token", "mi18nLang"]

/-- One iteration of the `forEach` body in `Cookie.parseCookieString`:
trim the pair, split on `=`, and store the decoded value under the
camel-cased key (numbers for `ltuid`/`account_id`, a language code for
`mi18nLang`).  A `URIError` from `decodeURIComponent` aborts the loop. -/
def processPair (obj : JsObj) (pair : String) : Except CookieErr JsObj :=
  let parts := splitCh '=' (trimJS pair)
  let cookieKey := parts.headD ""
  let cookieValue := parts.get? 1
  if cookieKey ∈ cookieStringKeys then
    match decodeArgJS cookieValue with
    | none => .error .uri
    | some v =>
      let obj1 := objSet obj (toCamelCase cookieKey) (.str v)
      if cookieKey = "ltuid" ∨ cookieKey = "account_id" then
        .ok (objSet obj1 (toCamelCase cookieKey) (.num (parseIntJS v)))
      else if cookieKey = "mi18nLang" then
        .ok (objSet obj1 (toCamelCase cookieKey) (.str (parseLang v)))
      else .ok obj1
  else .ok obj

/-- The `ltuid`/`accountId` back-fill block of `Cookie.parseCookieString`:
if exactly one of the two is truthy, copy it onto the other. -/
def deriveAccountPair (obj : JsObj) : JsObj :=
  if truthy (objGet obj "ltuid") ∧ ¬ truthy (objGet obj "accountId") then
    objSet obj "accountId" (objGet obj "ltuid")
  else if ¬ truthy (objGet obj "ltuid") ∧ truthy (objGet obj "accountId") then
    objSet obj "ltuid" (objGet obj "accountId")
  else obj

/-- `Cookie.parseCookieString`: split on `;`, process each pair, then derive
`accountId` from `ltuid` (or vice versa), and fail with the `HoyolabError`
when `ltoken` or `ltuid` is still falsy. -/
def parseCookieString (cookieString : String) : Except CookieErr JsObj := do
  let obj ← (splitCh ';' cookieString).foldlM processPair []
  let obj := deriveAccountPair obj
  if ¬ truthy (objGet obj "ltoken") ∨ ¬ truthy (objGet obj "ltuid") then
    .error (.hoyolab "Cookie key ltuid or ltoken doesnt exist !")
  else .ok obj

/-- JS template-literal stringification of a cookie value. -/
def jsValToString : JsVal → String
  | .undef => "undefined"
  | .str s => s
  | .num .nan => "NaN"
  | .num (.val n) => jsIntToString n

/-- `Cookie.parseCookie`: serialize a cookie object to a cookie string.
Note that when `accountId` is falsy the source assigns
`cookie.accountId = cookie.ltuid` on the argument itself, so the (possibly
mutated) object is returned alongside the string. -/
def parseCookie (cookie : JsObj) : JsObj × String :=
  let cookie1 :=
    if ¬ truthy (objGet cookie "accountId") then
      objSet cookie "accountId" (objGet cookie "ltuid")
    else cookie
  let pairs := (cookie1.filter (fun e => truthy e.2)).map (fun e =>
    (if e.1 = "cookieToken" ∨ e.1 = "accountId" then toSnakeCase e.1 else e.1)
      ++ "=" ++ jsValToString e.2)
  (cookie1, joinSep "; " pairs)

/-! ## Facts about `parseCookieString` -/

/-- The key of one `key=value` pair as `parseCookieString` sees it. -/
def pairKey (p : String) : String := (splitCh '=' (trimJS p)).headD ""

/-- The keys of all pairs of a cookie string. -/
def cookiePairKeys (s : String) : List String :=
  (splitCh ';' s).map pairKey

theorem processPair_error (obj : JsObj) (p : String) (e : CookieErr)
    (h : processPair obj p = .error e) : e = .uri := by
  simp only [processPair] at h
  split at h
  · split at h
    · simp at h
      exact h.symm
    · split at h
      · simp at h
      · split at h <;> simp at h
  · simp at h

theorem processPair_frame (obj obj' : JsObj) (p : String) (ck : String)
    (h : processPair obj p = .ok obj')
    (hk : pairKey p ∉ cookieStringKeys ∨ toCamelCase (pairKey p) ≠ ck) :
    objGet obj' ck = objGet obj ck := by
  simp only [processPair] at h
  rw [pairKey] at hk
  simp only [List.headD_eq_head?_getD] at hk h
  rcases hk with hk | hk
  · rw [if_neg hk] at h
    simp at h
    rw [h]
  · split at h
    case isFalse => simp at h; rw [h]
    case isTrue hmem =>
      split at h
      · simp at h
      · split at h
        · simp at h
          rw [← h, objGet_objSet_other _ _ _ _ hk, objGet_objSet_other _ _ _ _ hk]
        · split at h
          · simp at h
            rw [← h, objGet_objSet_other _ _ _ _ hk, objGet_objSet_other _ _ _ _ hk]
          · simp at h
            rw [← h, objGet_objSet_other _ _ _ _ hk]

theorem foldlM_processPair_frame (ps : List String) (obj : JsObj) (ck : String)
    (hps : ∀ p ∈ ps,
      pairKey p ∉ cookieStringKeys ∨ toCamelCase (pairKey p) ≠ ck) :
    ps.foldlM processPair obj = .error .uri ∨
      ∃ obj', ps.foldlM processPair obj = .ok obj' ∧
        objGet obj' ck = objGet obj ck := by
  induction ps generalizing obj with
  | nil => exact Or.inr ⟨obj, rfl, rfl⟩
  | cons p ps ih =>
    rw [List.foldlM_cons]
    cases hpp : processPair obj p with
    | error e =>
      left
      have he := processPair_error obj p e hpp
      subst he
      rfl
    | ok obj1 =>
      have hfr := processPair_frame obj obj1 p ck hpp (hps p (by simp))
      rcases ih obj1 (fun q hq => hps q (by simp [hq])) with h1 | ⟨obj2, h2, h3⟩
      · left
        exact h1
      · right
        exact ⟨obj2, h2, by rw [h3, hfr]⟩

theorem camel_eq_ltoken (k : String) (hk : k ∈ cookieStringKeys)
    (h : toCamelCase k = "ltoken") : k = "ltoken" := by
  fin_cases hk <;> revert h <;> decide

theorem camel_eq_ltuid (k : String) (hk : k ∈ cookieStringKeys)
    (h : toCamelCase k = "ltuid") : k = "ltuid" := by
  fin_cases hk <;> revert h <;> decide

theorem camel_eq_accountId (k : String) (hk : k ∈ cookieStringKeys)
    (h : toCamelCase k = "accountId") : k = "account_id" := by
  fin_cases hk <;> revert h <;> decide

/-- C6 (counterexample): the cookie string `"ltoken=abc; account_id=123"`
has no `ltuid` pair, yet `parseCookieString` succeeds (it back-fills
`ltuid` from `account_id`), contradicting the claim that a missing `ltuid`
key always fails with a `CredentialError`. -/
theorem c6_counterexample :
    "ltuid" ∉ cookiePairKeys "ltoken=abc; account_id=123" ∧
    parseCookieString "ltoken=abc; account_id=123" =
      .ok [("ltoken", .str "abc"), ("accountId", .num (.val 123)),
        ("ltuid", .num (.val 123))] := by
  constructor
  · decide
  · rfl

theorem deriveAccountPair_get_other (obj : JsObj) (k : String)
    (h1 : k ≠ "accountId") (h2 : k ≠ "ltuid") :
    objGet (deriveAccountPair obj) k = objGet obj k := by
  unfold deriveAccountPair
  split
  · exact objGet_objSet_other _ _ _ _ (fun he => h1 he.symm)
  · split
    · exact objGet_objSet_other _ _ _ _ (fun he => h2 he.symm)
    · rfl

theorem parseCookieString_error_fold (s : String) (e : CookieErr)
    (hf : (splitCh ';' s).foldlM processPair [] = .error e) :
    parseCookieString s = .error e := by
  simp only [parseCookieString]
  rw [hf]
  rfl

theorem parseCookieString_ok_fold (s : String) (obj : JsObj)
    (hf : (splitCh ';' s).foldlM processPair [] = .ok obj) :
    parseCookieString s =
      (if ¬ truthy (objGet (deriveAccountPair obj) "ltoken") ∨
          ¬ truthy (objGet (deriveAccountPair obj) "ltuid") then
        .error (.hoyolab "Cookie key ltuid or ltoken doesnt exist !")
      else .ok (deriveAccountPair obj)) := by
  simp only [parseCookieString]
  rw [hf]
  rfl

/-- C6 (amended): a cookie string whose pairs contain no `ltoken` key — or
neither an `ltuid` nor an `account_id` key — always fails: with the
`HoyolabError` (`CredentialError`), except that a malformed percent-escape
in some other recognized value fails with the `URIError` of
`decodeURIComponent` first. -/
theorem c6_missing_required_key_fails (s : String)
    (h : "ltoken" ∉ cookiePairKeys s ∨
      ("ltuid" ∉ cookiePairKeys s ∧ "account_id" ∉ cookiePairKeys s)) :
    parseCookieString s =
      .error (.hoyolab "Cookie key ltuid or ltoken doesnt exist !") ∨
    parseCookieString s = .error .uri := by
  rcases h with h | ⟨h1, h2⟩
  · have hps : ∀ p ∈ splitCh ';' s,
        pairKey p ∉ cookieStringKeys ∨ toCamelCase (pairKey p) ≠ "ltoken" := by
      intro p hp
      by_cases hin : pairKey p ∈ cookieStringKeys
      · right
        intro hcam
        exact h (by
          rw [cookiePairKeys]
          exact List.mem_map.mpr ⟨p, hp, camel_eq_ltoken _ hin hcam⟩)
      · exact Or.inl hin
    rcases foldlM_processPair_frame (splitCh ';' s) [] "ltoken" hps with
      hf | ⟨obj, hf, hg⟩
    · exact Or.inr (parseCookieString_error_fold s _ hf)
    · left
      rw [parseCookieString_ok_fold s obj hf]
      have hlt : objGet (deriveAccountPair obj) "ltoken" = .undef := by
        rw [deriveAccountPair_get_other obj "ltoken" (by decide) (by decide),
          hg]
        rfl
      rw [if_pos (Or.inl (by rw [hlt]; decide))]
  · have hpsA : ∀ p ∈ splitCh ';' s,
        pairKey p ∉ cookieStringKeys ∨ toCamelCase (pairKey p) ≠ "ltuid" := by
      intro p hp
      by_cases hin : pairKey p ∈ cookieStringKeys
      · right
        intro hcam
        exact h1 (by
          rw [cookiePairKeys]
          exact List.mem_map.mpr ⟨p, hp, camel_eq_ltuid _ hin hcam⟩)
      · exact Or.inl hin
    have hpsB : ∀ p ∈ splitCh ';' s,
        pairKey p ∉ cookieStringKeys ∨ toCamelCase (pairKey p) ≠ "accountId" := by
      intro p hp
      by_cases hin : pairKey p ∈ cookieStringKeys
      · right
        intro hcam
        exact h2 (by
          rw [cookiePairKeys]
          exact List.mem_map.mpr ⟨p, hp, camel_eq_accountId _ hin hcam⟩)
      · exact Or.inl hin
    rcases foldlM_processPair_frame (splitCh ';' s) [] "ltuid" hpsA with
      hf | ⟨obj, hf, hgA⟩
    · exact Or.inr (parseCookieString_error_fold s _ hf)
    · rcases foldlM_processPair_frame (splitCh ';' s) [] "accountId" hpsB with
        hf' | ⟨obj', hf', hgB⟩
      · exact Or.inr (parseCookieString_error_fold s _ hf')
      · left
        have hoo : obj' = obj := by
          have hcmp := hf.symm.trans hf'
          simpa using hcmp.symm
        rw [hoo] at hgB
        rw [parseCookieString_ok_fold s obj hf]
        have hA : objGet obj "ltuid" = .undef := by rw [hgA]; rfl
        have hB : objGet obj "accountId" = .undef := by rw [hgB]; rfl
        have hder : deriveAccountPair obj = obj := by
          unfold deriveAccountPair
          rw [if_neg (by rw [hA]; simp [truthy]), if_neg (by rw [hB]; simp [truthy])]
        rw [hder, if_pos (Or.inr (by rw [hA]; decide))]

/-- C6 (witness): the amended theorem applied to `"ltuid=1"`, whose pairs
contain no `ltoken` key. -/
theorem c6_missing_required_key_fails_witness :
    ("ltoken" ∉ cookiePairKeys "ltuid=1" ∨
      ("ltuid" ∉ cookiePairKeys "ltuid=1" ∧
        "account_id" ∉ cookiePairKeys "ltuid=1")) ∧
    (parseCookieString "ltuid=1" =
        .error (.hoyolab "Cookie key ltuid or ltoken doesnt exist !") ∨
      parseCookieString "ltuid=1" = .error .uri) :=
  ⟨Or.inl (by decide), c6_missing_required_key_fails "ltuid=1" (Or.inl (by decide))⟩

/-- C7 (counterexample): serializing the Credential
`{ltoken: "x", ltuid: 5}` with `parseCookie` writes `accountId = 5` back
onto the object itself, so a Credential passed to a client is not left
unchanged by serialization. -/
theorem c7_counterexample :
    objGet [("ltoken", JsVal.str "x"), ("ltuid", JsVal.num (.val 5))]
        "accountId" = .undef ∧
    objGet (parseCookie [("ltoken", JsVal.str "x"),
        ("ltuid", JsVal.num (.val 5))]).1 "accountId" = .num (.val 5) := by
  constructor <;> rfl

/-- C7 (amended): `parseCookie` leaves every field other than `accountId`
unchanged; `accountId` itself is unchanged when it is already truthy, and
otherwise it is overwritten with the `ltuid` value — that is, the derived
`account_id` IS written back onto the Credential object while it is also
serialized into the output string. -/
theorem c7_parseCookie_mutation (cookie : JsObj) :
    (∀ k, k ≠ "accountId" →
      objGet (parseCookie cookie).1 k = objGet cookie k) ∧
    objGet (parseCookie cookie).1 "accountId" =
      (if truthy (objGet cookie "accountId") then objGet cookie "accountId"
      else objGet cookie "ltuid") := by
  constructor
  · intro k hk
    unfold parseCookie
    simp only []
    split
    · exact objGet_objSet_other _ _ _ _ (fun he => hk he.symm)
    · rfl
  · unfold parseCookie
    simp only []
    split
    case isTrue hc =>
      rw [objGet_objSet_same]
    case isFalse hc =>
      have ht : truthy (objGet cookie "accountId") = true := by
        by_contra hx
        exact hc (by simpa using hx)
      rw [if_pos ht]

/-- C7 (witness): the amended theorem applied to `{ltoken: "x", ltuid: 5}`
at the field `ltoken`. -/
theorem c7_parseCookie_mutation_witness :
    ("ltoken" : String) ≠ "accountId" ∧
    objGet (parseCookie [("ltoken", JsVal.str "x"),
        ("ltuid", JsVal.num (.val 5))]).1 "ltoken" =
      objGet [("ltoken", JsVal.str "x"), ("ltuid", JsVal.num (.val 5))]
        "ltoken" :=
  ⟨by decide, (c7_parseCookie_mutation _).1 "ltoken" (by decide)⟩

/-! ## `getGenshinRegion` (`gi.helper.ts`, `gi.enum.ts`) -/

/-- JS `Number(·)` on the at-most-one-character slice taken by
`getGenshinRegion`: the digit value for a digit character, `0` for the empty
string, `NaN` otherwise. -/
def jsNumberOfSlice (s : String) : JsInt :=
  match s.data with
  | [] => .val 0
  | [c] => if '0' ≤ c ∧ c ≤ '9' then .val (Int.ofNat (c.toNat - 48)) else .nan
  | _ => .nan

/-- `getGenshinRegion(uid)`:
`Number(uid.toString().trim().slice(0, 1))`, then the `switch` over the
`GenshinRegion` enum; the `error` result models the thrown `HoyolabError`
message. -/
def getGenshinRegion (uid : Nat) : Except String String :=
  let server_region := jsNumberOfSlice ⟨(trimJS (jsNatToString uid)).data.take 1⟩
  if server_region = .val 6 then .ok "os_usa"
  else if server_region = .val 7 then .ok "os_euro"
  else if server_region = .val 8 then .ok "os_asia"
  else if server_region = .val 9 then .ok "os_cht"
  else .error ("Given UID " ++ jsNatToString uid ++ " is invalid !")

/-- The leading decimal digit of a natural number (claim-side definition). -/
def leadingDigit (n : Nat) : Nat :=
  if h : n < 10 then n else leadingDigit (n / 10)
termination_by n
decreasing_by exact Nat.div_lt_self (by omega) (by omega)

theorem dropWhile_all_false {p : Char → Bool} (l : List Char)
    (h : ∀ c ∈ l, p c = false) : l.dropWhile p = l := by
  cases l with
  | nil => rfl
  | cons c cs => rw [List.dropWhile_cons, h c (by simp)]; simp

theorem trimJS_no_ws (cs : List Char)
    (h : ∀ c ∈ cs, jsWhitespace c = false) : trimJS ⟨cs⟩ = ⟨cs⟩ := by
  unfold trimJS
  rw [show (String.mk cs).data = cs from rfl]
  rw [dropWhile_all_false cs h,
    dropWhile_all_false cs.reverse (fun c hc => h c (by simpa using hc))]
  simp

theorem jsNatToString_digits (n : Nat) :
    ∀ c ∈ (jsNatToString n).data, '0' ≤ c ∧ c ≤ '9' := by
  intro c hc
  exact natDigitsRev_mem_digit n c (by
    simpa using (show c ∈ (natDigitsRev n).reverse from hc))

theorem take_one_digits (n : Nat) :
    (jsNatToString n).data.take 1 = [jsDigitChar (leadingDigit n)] := by
  induction n using Nat.strong_induction_on with
  | _ n ih =>
    rw [leadingDigit]
    show (natDigitsRev n).reverse.take 1 = _
    rw [natDigitsRev_eq]
    by_cases h : n < 10
    · rw [dif_pos h, if_pos h]
      rfl
    · rw [dif_neg h, if_neg h, List.reverse_cons]
      have hne : (natDigitsRev (n / 10)).reverse ≠ [] := by
        simp [natDigitsRev_ne_nil]
      have hra := ih (n / 10) (Nat.div_lt_self (by omega) (by omega))
      rw [List.take_append_of_le_length (by
        cases hrr : (natDigitsRev (n / 10)).reverse with
        | nil => exact absurd hrr hne
        | cons a l => simp)]
      exact hra

theorem trimJS_id (s : String) (h : ∀ c ∈ s.data, jsWhitespace c = false) :
    trimJS s = s := by
  obtain ⟨cs⟩ := s
  exact trimJS_no_ws cs h

theorem leadingDigit_lt_ten (n : Nat) : leadingDigit n < 10 := by
  induction n using Nat.strong_induction_on with
  | _ n ih =>
    rw [leadingDigit]
    by_cases h : n < 10
    · rw [dif_pos h]; omega
    · rw [dif_neg h]
      exact ih (n / 10) (Nat.div_lt_self (by omega) (by omega))

theorem jsNumberOfSlice_digit (d : Nat) (h : d < 10) :
    jsNumberOfSlice ⟨[jsDigitChar d]⟩ = .val (Int.ofNat d) := by
  interval_cases d <;> decide

/-- C8: `getGenshinRegion` maps leading digit 6 to `"os_usa"` (USA), 7 to
`"os_euro"` (EUROPE), 8 to `"os_asia"` (ASIA) and 9 to `"os_cht"`
(CHINA_TAIWAN), and fails with the thrown `HoyolabError`
(`InvalidIdentifierError`) for every other leading digit; in particular
UID 601234567 resolves to USA, 701234567 to EUROPE, and 101234567
(leading digit 1) fails. -/
theorem c8_genshin_region_rule :
    (∀ uid : Nat, getGenshinRegion uid =
      (if leadingDigit uid = 6 then .ok "os_usa"
      else if leadingDigit uid = 7 then .ok "os_euro"
      else if leadingDigit uid = 8 then .ok "os_asia"
      else if leadingDigit uid = 9 then .ok "os_cht"
      else .error ("Given UID " ++ jsNatToString uid ++ " is invalid !"))) ∧
    getGenshinRegion 601234567 = .ok "os_usa" ∧
    getGenshinRegion 701234567 = .ok "os_euro" ∧
    getGenshinRegion 101234567 =
      .error ("Given UID " ++ jsNatToString 101234567 ++ " is invalid !") := by
  refine ⟨?_, rfl, rfl, rfl⟩
  intro uid
  unfold getGenshinRegion
  simp only []
  rw [trimJS_id (jsNatToString uid)
    (fun c hc => digit_not_jsWhitespace c (jsNatToString_digits uid c hc))]
  rw [take_one_digits uid, jsNumberOfSlice_digit _ (leadingDigit_lt_ten uid)]
  have hlt := leadingDigit_lt_ten uid
  set d := leadingDigit uid with hd
  interval_cases d <;> rfl

/-! ## `Request.send` (`request.ts`, `request.cache.ts`)

The transport is abstracted by an oracle `Nat → TransportResult` giving the
outcome of each successive `axios` attempt; the model clock (`now`, in
seconds) advances only at the explicit one-second retry delay, and
`generateDS`'s wall-clock/randomness dependence is a `dsGen : Nat → String`
parameter. -/

/-- The response envelope `{retcode, message, data}`; the opaque payload is
an optional string (`none` = `null`). -/
structure Envelope where
  retcode : Int
  message : String
  data : Option String
deriving DecidableEq, Repr

/-- One `axios` attempt: a resolved response (status, statusText, parsed
body), a rejected `AxiosError` (code, message), or a non-Axios exception
raised inside the `try` block. -/
inductive TransportResult where
  | ok (status : Nat) (statusText : String) (result : Envelope)
  | netFail (code : String) (msg : String)
  | exotic
deriving DecidableEq, Repr

/-- The structural cache key `{url, method, body, params}`; its MD5/JSON
hash is abstracted to the tuple itself. -/
structure CacheKey where
  url : String
  method : String
  body : List (String × JsVal)
  params : List (String × JsVal)
deriving DecidableEq, Repr

/-- A node-cache entry: stored value and absolute expiry second (`none` =
unlimited, for ttl 0). -/
structure CacheEntry where
  value : Envelope
  expiresAt : Option Nat
deriving DecidableEq, Repr

/-- Raw lookup in the cache association list. -/
def Cache.lookup (c : List (CacheKey × CacheEntry)) (k : CacheKey) :
    Option CacheEntry :=
  (c.find? (fun e => e.1 = k)).map (fun e => e.2)

/-- `Cache.get` via node-cache: a hit while `now ≤ expiresAt` (or the entry
never expires); expired or absent keys miss.  (node-cache's lazy deletion
of an expired entry on read is not modelled; it never resurrects values.) -/
def Cache.get (c : List (CacheKey × CacheEntry)) (k : CacheKey) (now : Nat) :
    Option Envelope :=
  match Cache.lookup c k with
  | some e =>
    match e.expiresAt with
    | none => some e.value
    | some t => if now ≤ t then some e.value else none
  | none => none

/-- `Cache.set`: an undefined ttl falls back to `stdTTL = 30`; ttl 0 means
no expiry (node-cache); an existing key is overwritten in place. -/
def Cache.set (c : List (CacheKey × CacheEntry)) (k : CacheKey)
    (v : Envelope) (ttl : Option Nat) (now : Nat) :
    List (CacheKey × CacheEntry) :=
  let ttlEff := ttl.getD 30
  let e : CacheEntry := ⟨v, if ttlEff = 0 then none else some (now + ttlEff)⟩
  if c.any (fun p => p.1 = k) then
    c.map (fun p => if p.1 = k then (k, e) else p)
  else c ++ [(k, e)]

/-- Header map write (JS object property semantics, like `objSet`). -/
def hdrSet (hs : List (String × String)) (k v : String) :
    List (String × String) :=
  if hs.any (fun e => e.1 = k) then
    hs.map (fun e => if e.1 = k then (k, v) else e)
  else hs ++ [(k, v)]

/-- Header map read. -/
def hdrGet (hs : List (String × String)) (k : String) : Option String :=
  (hs.find? (fun e => e.1 = k)).map (fun e => e.2)

theorem hdrGet_cons (e : String × String) (hs : List (String × String))
    (k : String) :
    hdrGet (e :: hs) k = if e.1 = k then some e.2 else hdrGet hs k := by
  by_cases h : e.1 = k <;> simp [hdrGet, List.find?, h]

theorem hdrSet_cons (e : String × String) (hs : List (String × String))
    (k v : String) :
    hdrSet (e :: hs) k v =
      if e.1 = k then (k, v) :: hs.map (fun e => if e.1 = k then (k, v) else e)
      else e :: hdrSet hs k v := by
  by_cases h : e.1 = k
  · simp [hdrSet, h]
  · simp only [hdrSet, List.any_cons, h, decide_eq_true_eq, if_neg h]
    split <;> simp_all

theorem hdrGet_map_set (hs : List (String × String)) (k k' v : String)
    (hk : k ≠ k') :
    hdrGet (hs.map (fun e => if e.1 = k then (k, v) else e)) k' =
      hdrGet hs k' := by
  induction hs with
  | nil => rfl
  | cons e hs ih =>
    by_cases h : e.1 = k
    · simp only [List.map_cons, if_pos h, hdrGet_cons]
      rw [if_neg (by simpa using hk), if_neg (by rw [h]; exact hk)]
      exact ih
    · simp only [List.map_cons, if_neg h, hdrGet_cons]
      by_cases h2 : e.1 = k' <;> simp [h2, ih]

theorem hdrGet_hdrSet_other (hs : List (String × String)) (k k' v : String)
    (hk : k ≠ k') : hdrGet (hdrSet hs k v) k' = hdrGet hs k' := by
  induction hs with
  | nil => simp [hdrSet, hdrGet_cons, hk, hdrGet]
  | cons e hs ih =>
    rw [hdrSet_cons]
    by_cases h : e.1 = k
    · rw [if_pos h, hdrGet_cons, if_neg (by simpa using hk)]
      rw [hdrGet_cons, if_neg (by rw [h]; exact hk)]
      exact hdrGet_map_set hs k k' v hk
    · rw [if_neg h, hdrGet_cons, hdrGet_cons, ih]

/-- The mutable state of a `Request` instance, plus the model clock `now`
(seconds). -/
structure Request where
  retries : Nat
  headers : List (String × String)
  body : List (String × JsVal)
  params : List (String × JsVal)
  cache : List (CacheKey × CacheEntry)
  ds : Bool
  now : Nat
deriving DecidableEq, Repr

/-- The constructor state: default headers, `retries = 1`, empty body and
params, fresh cache, `ds` off; an optional cookie string becomes the
`Cookie` header. -/
def Request.new (cookies : Option String) (now : Nat) : Request :=
  { retries := 1
    headers :=
      [("Content-Type", "application/json"),
       ("User-Agent", "Mozilla/5.0 (Windows NT 10.0; Win64; x64) " ++
         "AppleWebKit/537.36 (KHTML, like Gecko) Chrome/109.0.0.0 " ++
         "Safari/537.36"),
       ("x-rpc-app_version", "1.5.0"),
       ("x-rpc-client_type", "5"),
       ("x-rpc-language", "en-us")] ++
      (match cookies with
       | some c => [("Cookie", c)]
       | none => [])
    body := []
    params := []
    cache := []
    ds := false
    now := now }

/-- `setBody`: object-spread merge into `body`. -/
def Request.setBody (r : Request) (b : List (String × JsVal)) : Request :=
  { r with body := b.foldl (fun o e => objSet o e.1 e.2) r.body }

/-- `setParams`: object-spread merge into `params`. -/
def Request.setParams (r : Request) (ps : List (String × JsVal)) : Request :=
  { r with params := ps.foldl (fun o e => objSet o e.1 e.2) r.params }

/-- `setDs`. -/
def Request.setDs (r : Request) (flag : Bool) : Request := { r with ds := flag }

/-- `setLang`. -/
def Request.setLang (r : Request) (lang : String) : Request :=
  { r with headers := hdrSet r.headers "x-rpc-language" lang }

/-- `setReferer`: sets both `Referer` and `Origin`. -/
def Request.setReferer (r : Request) (url : String) : Request :=
  { r with headers := hdrSet (hdrSet r.headers "Referer" url) "Origin" url }

/-- The outcome of a `send` call: a returned envelope, or a thrown
`HoyolabError` message. -/
inductive SendOutcome where
  | ok (env : Envelope)
  | threw (msg : String)
deriving DecidableEq, Repr

/-- The `this.headers.DS = generateDS()` step (runs only when `ds` is set,
before the cache/transport block is entered — but after the cache check). -/
def dsStep (dsGen : Nat → String) (st : Request) : Request :=
  if st.ds then { st with headers := hdrSet st.headers "DS" (dsGen st.now) }
  else st

/-- `Request.send(url, method, ttl)`.

Control flow of the source, in order: compute the cache key from
`(url, method, body, params)`; return a cached envelope if present;
attach a fresh `DS` header when `ds` is set; consult the transport
(the oracle); a rejected `axios` call, or a resolved status outside
`{200, 201}` (which the source turns into a thrown `AxiosError`), becomes a
thrown `HoyolabError` built from code and message; a resolved `-2016`
envelope with `retries ≤ 60` increments `retries`, waits one second and
re-invokes `send` with the same url and method but WITHOUT the ttl
argument; any other resolved envelope is cached under the key (ttl, or the
cache default), `retries` resets to 1, `body` is cleared and the envelope
is returned; a non-Axios exception is swallowed into the synthetic
`{retcode: -9999, message: "", data: null}` envelope.  The recursive call
is `return this.send(...)` without `await`, so an inner throw propagates
past the outer `catch`. -/
def Request.send (dsGen : Nat → String) (oracle : Nat → TransportResult)
    (st : Request) (url : String) (method : String) (ttl : Option Nat) :
    SendOutcome × Request :=
  let cacheKey : CacheKey := ⟨url, method, st.body, st.params⟩
  match Cache.get st.cache cacheKey st.now with
  | some cachedResult => (.ok cachedResult, st)
  | none =>
    match oracle 0 with
    | .netFail code msg =>
      (.threw ("Request Error: [" ++ code ++ "] - " ++ msg), dsStep dsGen st)
    | .exotic => (.ok ⟨-9999, "", none⟩, dsStep dsGen st)
    | .ok status statusText result =>
      if status = 200 ∨ status = 201 then
        if hr : result.retcode = -2016 ∧ st.retries ≤ 60 then
          Request.send dsGen (fun i => oracle (i + 1))
            { dsStep dsGen st with
              retries := st.retries + 1, now := st.now + 1 }
            url method none
        else
          (.ok result,
            { dsStep dsGen st with
              cache := Cache.set (dsStep dsGen st).cache cacheKey result
                ttl st.now
              retries := 1
              body := [] })
      else
        (.threw ("Request Error: [" ++ jsNatToString status ++ "] - " ++
          statusText), dsStep dsGen st)
termination_by 61 - st.retries
decreasing_by simp; omega

/-! ## `RedeemModule.claim` (`redeem.ts`) -/

/-- The U+FFFD stripping `code.replace(/�/g, '')`: every occurrence of
the replacement character is removed, all other characters stay in order. -/
def stripReplacementChar (code : String) : String :=
  ⟨code.data.filter (fun c => c ≠ '�')⟩

/-- The fields of `RedeemModule` relevant to `claim` (`request` is passed
separately as the explicit state). -/
structure RedeemModule where
  lang : String
  game : String
  region : Option String
  uid : Option Int
deriving DecidableEq, Repr

/-- `RedeemModule.claim(code)` up to the transport: throws the
`HoyolabError` when `region` or `uid` is falsy (null, `""` or `0`),
otherwise merges the parameters — with the sanitized code as `cdkey` —
into the request.  The subsequent `request.send(RedeemRoute.redeem())` is
the `Request.send` modelled above. -/
def RedeemModule.claim (m : RedeemModule) (r : Request) (code : String) :
    Except String Request :=
  if m.region.getD "" = "" ∨ m.uid.getD 0 = 0 then
    .error "UID parameter is missing or failed to be filled"
  else
    .ok (r.setParams
      [("uid", .num (.val (m.uid.getD 0))),
       ("region", .str (m.region.getD "")),
       ("game_biz", .str m.game),
       ("cdkey", .str (stripReplacementChar code)),
       ("lang", .str m.lang),
       ("sLangKey", .str m.lang)])

/-- C9: a successful `RedeemModule.claim` transmits as `cdkey` exactly the
user code with every U+FFFD removed: no replacement character remains, the
result is a subsequence of the original (other characters keep their order),
and every non-U+FFFD character keeps its multiplicity; in particular
`"ABC�123"` is transmitted as `"ABC123"`. -/
theorem c9_redeem_strips_replacement_char :
    (∀ (m : RedeemModule) (r : Request) (code : String) (r' : Request),
      RedeemModule.claim m r code = .ok r' →
      objGet r'.params "cdkey" = .str (stripReplacementChar code) ∧
      '�' ∉ (stripReplacementChar code).data ∧
      (stripReplacementChar code).data.Sublist code.data ∧
      (∀ c : Char, c ≠ '�' →
        (stripReplacementChar code).data.count c = code.data.count c)) ∧
    stripReplacementChar "ABC�123" = "ABC123" := by
  constructor
  · intro m r code r' h
    unfold RedeemModule.claim at h
    split at h
    · simp at h
    · simp only [Except.ok.injEq] at h
      subst h
      refine ⟨?_, ?_, ?_, ?_⟩
      · show objGet (Request.setParams r _).params "cdkey" = _
        unfold Request.setParams
        simp only [List.foldl_cons, List.foldl_nil]
        rw [objGet_objSet_other _ _ _ _ (by decide),
          objGet_objSet_other _ _ _ _ (by decide),
          objGet_objSet_same]
      · simp [stripReplacementChar, List.mem_filter]
      · exact List.filter_sublist _
      · intro c hc
        unfold stripReplacementChar
        simp only []
        rw [List.count_filter (by simp [hc])]
  · rfl

/-- C9 (witness): the theorem applied to a concrete module, request and
code `"ABC�123"`. -/
theorem c9_redeem_strips_replacement_char_witness :
    RedeemModule.claim ⟨"en-us", "hk4e_global", some "os_usa", some 7⟩
        (Request.new none 0) "ABC�123" =
      .ok (Request.setParams (Request.new none 0)
        [("uid", .num (.val 7)), ("region", .str "os_usa"),
         ("game_biz", .str "hk4e_global"),
         ("cdkey", .str (stripReplacementChar "ABC�123")),
         ("lang", .str "en-us"), ("sLangKey", .str "en-us")]) ∧
    objGet (Request.setParams (Request.new none 0)
        [("uid", .num (.val 7)), ("region", .str "os_usa"),
         ("game_biz", .str "hk4e_global"),
         ("cdkey", .str (stripReplacementChar "ABC�123")),
         ("lang", .str "en-us"), ("sLangKey", .str "en-us")]).params
      "cdkey" = .str (stripReplacementChar "ABC�123") := by
  have h : RedeemModule.claim ⟨"en-us", "hk4e_global", some "os_usa", some 7⟩
      (Request.new none 0) "ABC�123" =
      .ok (Request.setParams (Request.new none 0)
        [("uid", .num (.val 7)), ("region", .str "os_usa"),
         ("game_biz", .str "hk4e_global"),
         ("cdkey", .str (stripReplacementChar "ABC�123")),
         ("lang", .str "en-us"), ("sLangKey", .str "en-us")]) := rfl
  exact ⟨h, (c9_redeem_strips_replacement_char.1 _ _ _ _ h).1⟩

theorem dsStep_retries (d : Nat → String) (st : Request) :
    (dsStep d st).retries = st.retries := by
  unfold dsStep; split <;> rfl

theorem dsStep_body (d : Nat → String) (st : Request) :
    (dsStep d st).body = st.body := by
  unfold dsStep; split <;> rfl

theorem dsStep_params (d : Nat → String) (st : Request) :
    (dsStep d st).params = st.params := by
  unfold dsStep; split <;> rfl

theorem dsStep_cache (d : Nat → String) (st : Request) :
    (dsStep d st).cache = st.cache := by
  unfold dsStep; split <;> rfl

theorem dsStep_now (d : Nat → String) (st : Request) :
    (dsStep d st).now = st.now := by
  unfold dsStep; split <;> rfl

theorem dsStep_headers_other (d : Nat → String) (st : Request) (h : String)
    (hh : h ≠ "DS") :
    hdrGet (dsStep d st).headers h = hdrGet st.headers h := by
  unfold dsStep
  split
  · exact hdrGet_hdrSet_other _ _ _ _ (fun he => hh he.symm)
  · rfl

theorem send_hit (dsGen : Nat → String) (oracle : Nat → TransportResult)
    (st : Request) (url method : String) (ttl : Option Nat) (env : Envelope)
    (h : Cache.get st.cache ⟨url, method, st.body, st.params⟩ st.now =
      some env) :
    Request.send dsGen oracle st url method ttl = (.ok env, st) := by
  rw [Request.send, h]

theorem send_netFail (dsGen : Nat → String) (oracle : Nat → TransportResult)
    (st : Request) (url method : String) (ttl : Option Nat)
    (code msg : String)
    (hm : Cache.get st.cache ⟨url, method, st.body, st.params⟩ st.now = none)
    (ho : oracle 0 = .netFail code msg) :
    Request.send dsGen oracle st url method ttl =
      (.threw ("Request Error: [" ++ code ++ "] - " ++ msg),
        dsStep dsGen st) := by
  rw [Request.send, hm, ho]

theorem send_exotic (dsGen : Nat → String) (oracle : Nat → TransportResult)
    (st : Request) (url method : String) (ttl : Option Nat)
    (hm : Cache.get st.cache ⟨url, method, st.body, st.params⟩ st.now = none)
    (ho : oracle 0 = .exotic) :
    Request.send dsGen oracle st url method ttl =
      (.ok ⟨-9999, "", none⟩, dsStep dsGen st) := by
  rw [Request.send, hm, ho]

theorem send_bad_status (dsGen : Nat → String)
    (oracle : Nat → TransportResult) (st : Request) (url method : String)
    (ttl : Option Nat) (status : Nat) (statusText : String) (result : Envelope)
    (hm : Cache.get st.cache ⟨url, method, st.body, st.params⟩ st.now = none)
    (ho : oracle 0 = .ok status statusText result)
    (hs : ¬ (status = 200 ∨ status = 201)) :
    Request.send dsGen oracle st url method ttl =
      (.threw ("Request Error: [" ++ jsNatToString status ++ "] - " ++
        statusText), dsStep dsGen st) := by
  rw [Request.send, hm, ho]
  dsimp only []
  rw [if_neg hs]

theorem send_retry (dsGen : Nat → String) (oracle : Nat → TransportResult)
    (st : Request) (url method : String) (ttl : Option Nat) (status : Nat)
    (statusText : String) (result : Envelope)
    (hm : Cache.get st.cache ⟨url, method, st.body, st.params⟩ st.now = none)
    (ho : oracle 0 = .ok status statusText result)
    (hs : status = 200 ∨ status = 201)
    (hr : result.retcode = -2016 ∧ st.retries ≤ 60) :
    Request.send dsGen oracle st url method ttl =
      Request.send dsGen (fun i => oracle (i + 1))
        { dsStep dsGen st with retries := st.retries + 1, now := st.now + 1 }
        url method none := by
  rw [Request.send, hm, ho]
  dsimp only []
  rw [if_pos hs, dif_pos hr]

theorem send_success (dsGen : Nat → String) (oracle : Nat → TransportResult)
    (st : Request) (url method : String) (ttl : Option Nat) (status : Nat)
    (statusText : String) (result : Envelope)
    (hm : Cache.get st.cache ⟨url, method, st.body, st.params⟩ st.now = none)
    (ho : oracle 0 = .ok status statusText result)
    (hs : status = 200 ∨ status = 201)
    (hr : ¬ (result.retcode = -2016 ∧ st.retries ≤ 60)) :
    Request.send dsGen oracle st url method ttl =
      (.ok result,
        { dsStep dsGen st with
          cache := Cache.set (dsStep dsGen st).cache
            ⟨url, method, st.body, st.params⟩ result ttl st.now
          retries := 1
          body := [] }) := by
  rw [Request.send, hm, ho]
  dsimp only []
  rw [if_pos hs, dif_neg hr]

theorem Cache.get_none_of_lookup (c : List (CacheKey × CacheEntry))
    (k : CacheKey) (now : Nat) (h : Cache.lookup c k = none) :
    Cache.get c k now = none := by
  unfold Cache.get
  rw [h]

theorem Cache.get_none_mono (c : List (CacheKey × CacheEntry)) (k : CacheKey)
    (n n' : Nat) (h : Cache.get c k n = none) (hn : n ≤ n') :
    Cache.get c k n' = none := by
  unfold Cache.get at h ⊢
  cases hl : Cache.lookup c k with
  | none => rfl
  | some e =>
    simp only [hl] at h ⊢
    cases he : e.expiresAt with
    | none => simp only [he] at h; simp at h
    | some t =>
      simp only [he] at h ⊢
      by_cases hc : n ≤ t
      · rw [if_pos hc] at h
        simp at h
      · rw [if_neg (show ¬ n' ≤ t by omega)]

theorem Cache.lookup_cons (e : CacheKey × CacheEntry)
    (c : List (CacheKey × CacheEntry)) (k : CacheKey) :
    Cache.lookup (e :: c) k =
      if e.1 = k then some e.2 else Cache.lookup c k := by
  by_cases h : e.1 = k <;> simp [Cache.lookup, List.find?, h]

theorem Cache.set_cons (e : CacheKey × CacheEntry)
    (c : List (CacheKey × CacheEntry)) (k : CacheKey) (v : Envelope)
    (ttl : Option Nat) (now : Nat) :
    Cache.set (e :: c) k v ttl now =
      (let ne : CacheEntry :=
        ⟨v, if ttl.getD 30 = 0 then none else some (now + ttl.getD 30)⟩
      if e.1 = k then
        (k, ne) :: c.map (fun p => if p.1 = k then (k, ne) else p)
      else e :: Cache.set c k v ttl now) := by
  by_cases h : e.1 = k
  · simp [Cache.set, h]
  · simp only [Cache.set, List.any_cons, h, decide_eq_true_eq, if_neg h]
    split <;> simp_all

theorem Cache.lookup_set_same (c : List (CacheKey × CacheEntry))
    (k : CacheKey) (v : Envelope) (ttl : Option Nat) (now : Nat) :
    Cache.lookup (Cache.set c k v ttl now) k =
      some ⟨v, if ttl.getD 30 = 0 then none else some (now + ttl.getD 30)⟩ := by
  induction c with
  | nil => simp [Cache.set, Cache.lookup, List.find?]
  | cons e c ih =>
    rw [Cache.set_cons]
    dsimp only []
    by_cases h : e.1 = k
    · rw [if_pos h, Cache.lookup_cons]
      simp
    · rw [if_neg h, Cache.lookup_cons, if_neg h, ih]

theorem Cache.get_set_same (c : List (CacheKey × CacheEntry)) (k : CacheKey)
    (v : Envelope) (ttl : Option Nat) (now now' : Nat) :
    Cache.get (Cache.set c k v ttl now) k now' =
      (if ttl.getD 30 = 0 ∨ now' ≤ now + ttl.getD 30 then some v
      else none) := by
  unfold Cache.get
  rw [Cache.lookup_set_same]
  by_cases h0 : ttl.getD 30 = 0
  · rw [if_pos h0]
    dsimp only []
    rw [if_pos (Or.inl h0)]
  · rw [if_neg h0]
    dsimp only []
    by_cases h1 : now' ≤ now + ttl.getD 30
    · rw [if_pos h1, if_pos (Or.inr h1)]
    · rw [if_neg h1, if_neg (by tauto)]

/-- The attempt sequence ends in a transport failure: the first response
that is not a retried `-2016` is either a rejected `axios` call or a
resolved status outside `{200, 201}`. -/
def sendTransportFails (oracle : Nat → TransportResult) (retries : Nat) :
    Bool :=
  match oracle 0 with
  | .netFail _ _ => true
  | .exotic => false
  | .ok status _ result =>
    if status = 200 ∨ status = 201 then
      if h : result.retcode = -2016 ∧ retries ≤ 60 then
        sendTransportFails (fun i => oracle (i + 1)) (retries + 1)
      else false
    else true
termination_by 61 - retries
decreasing_by omega

/-- The attempt sequence ends in an error outcome: a transport failure or a
swallowed non-Axios exception. -/
def sendErrorEnds (oracle : Nat → TransportResult) (retries : Nat) : Bool :=
  match oracle 0 with
  | .netFail _ _ => true
  | .exotic => true
  | .ok status _ result =>
    if status = 200 ∨ status = 201 then
      if h : result.retcode = -2016 ∧ retries ≤ 60 then
        sendErrorEnds (fun i => oracle (i + 1)) (retries + 1)
      else false
    else true
termination_by 61 - retries
decreasing_by omega

/-- C10: a `send` call (on a cache miss) whose attempt sequence ends in an
error outcome — a thrown transport error or the swallowed-exception
sentinel `{retcode: -9999, message: "", data: null}` — leaves the cache,
the body and the params exactly as they were and never resets the retry
counter (it can only grow by the `-2016` retries that preceded the error),
so the stale body is reused by the next `send`. -/
theorem c10_error_paths_leave_state (dsGen : Nat → String)
    (oracle : Nat → TransportResult) (st : Request) (url method : String)
    (ttl : Option Nat)
    (hm : Cache.get st.cache ⟨url, method, st.body, st.params⟩ st.now = none)
    (he : sendErrorEnds oracle st.retries = true) :
    ((∃ msg, (Request.send dsGen oracle st url method ttl).1 = .threw msg) ∨
      (Request.send dsGen oracle st url method ttl).1 =
        .ok ⟨-9999, "", none⟩) ∧
    (Request.send dsGen oracle st url method ttl).2.cache = st.cache ∧
    (Request.send dsGen oracle st url method ttl).2.body = st.body ∧
    (Request.send dsGen oracle st url method ttl).2.params = st.params ∧
    st.retries ≤ (Request.send dsGen oracle st url method ttl).2.retries := by
  induction oracle, st, url, method, ttl using Request.send.induct dsGen with
  | case1 oracle st url method ttl _ck env hhit =>
    rw [hhit] at hm
    simp at hm
  | case2 oracle st url method ttl _ck hmiss code msg ho =>
    rw [send_netFail dsGen oracle st url method ttl code msg hmiss ho]
    refine ⟨Or.inl ⟨_, rfl⟩, dsStep_cache dsGen st, dsStep_body dsGen st,
      dsStep_params dsGen st, by rw [dsStep_retries]⟩
  | case3 oracle st url method ttl _ck hmiss ho =>
    rw [send_exotic dsGen oracle st url method ttl hmiss ho]
    refine ⟨Or.inr rfl, dsStep_cache dsGen st, dsStep_body dsGen st,
      dsStep_params dsGen st, by rw [dsStep_retries]⟩
  | case4 oracle st url method ttl _ck hmiss status statusText result ho hs hr ih =>
    rw [sendErrorEnds] at he
    rw [ho] at he
    dsimp only [] at he
    rw [if_pos hs, dif_pos hr] at he
    rw [send_retry dsGen oracle st url method ttl status statusText result
      hmiss ho hs hr]
    have hm2 : Cache.get
        ({ dsStep dsGen st with
          retries := st.retries + 1, now := st.now + 1 } : Request).cache
        ⟨url, method,
          ({ dsStep dsGen st with
            retries := st.retries + 1, now := st.now + 1 } : Request).body,
          ({ dsStep dsGen st with
            retries := st.retries + 1, now := st.now + 1 } : Request).params⟩
        ({ dsStep dsGen st with
          retries := st.retries + 1, now := st.now + 1 } : Request).now =
        none := by
      dsimp only []
      rw [dsStep_cache, dsStep_body, dsStep_params]
      exact Cache.get_none_mono _ _ st.now _ hm (by omega)
    obtain ⟨hout, hcache, hbody, hparams, hret⟩ := ih hm2 he
    refine ⟨hout, ?_, ?_, ?_, ?_⟩
    · rw [hcache]
      dsimp only []
      exact dsStep_cache dsGen st
    · rw [hbody]
      dsimp only []
      exact dsStep_body dsGen st
    · rw [hparams]
      dsimp only []
      exact dsStep_params dsGen st
    · refine le_trans ?_ hret
      dsimp only []
      omega
  | case5 oracle st url method ttl _ck hmiss status statusText result ho hs hr =>
    rw [sendErrorEnds] at he
    rw [ho] at he
    dsimp only [] at he
    rw [if_pos hs, dif_neg hr] at he
    simp at he
  | case6 oracle st url method ttl _ck hmiss status statusText result ho hs =>
    rw [send_bad_status dsGen oracle st url method ttl status statusText
      result hmiss ho hs]
    refine ⟨Or.inl ⟨_, rfl⟩, dsStep_cache dsGen st, dsStep_body dsGen st,
      dsStep_params dsGen st, by rw [dsStep_retries]⟩

/-- A transport oracle that always rejects with an `AxiosError`. -/
def oracleNetFail : Nat → TransportResult :=
  fun _ => .netFail "ERR_BAD_RESPONSE" "socket hang up"

/-- A request state with a pending body and an empty cache. -/
def stBody : Request :=
  { retries := 1, headers := [], body := [("act_id", .str "e202102251931481")],
    params := [], cache := [], ds := false, now := 0 }

/-- C10 (witness): the theorem applied to a concrete rejected transport. -/
theorem c10_error_paths_leave_state_witness :
    (Cache.get stBody.cache ⟨"u", "GET", stBody.body, stBody.params⟩
        stBody.now = none ∧
      sendErrorEnds oracleNetFail stBody.retries = true) ∧
    (((∃ msg, (Request.send (fun _ => "DS") oracleNetFail stBody "u" "GET"
        none).1 = .threw msg) ∨
      (Request.send (fun _ => "DS") oracleNetFail stBody "u" "GET"
        none).1 = .ok ⟨-9999, "", none⟩) ∧
    (Request.send (fun _ => "DS") oracleNetFail stBody "u" "GET"
      none).2.cache = stBody.cache ∧
    (Request.send (fun _ => "DS") oracleNetFail stBody "u" "GET"
      none).2.body = stBody.body ∧
    (Request.send (fun _ => "DS") oracleNetFail stBody "u" "GET"
      none).2.params = stBody.params ∧
    stBody.retries ≤ (Request.send (fun _ => "DS") oracleNetFail stBody "u"
      "GET" none).2.retries) :=
  ⟨⟨rfl, by rw [sendErrorEnds]; rfl⟩,
    c10_error_paths_leave_state (fun _ => "DS") oracleNetFail stBody "u"
      "GET" none rfl (by rw [sendErrorEnds]; rfl)⟩

theorem send_threw_iff (dsGen : Nat → String)
    (oracle : Nat → TransportResult) (st : Request) (url method : String)
    (ttl : Option Nat)
    (hm : Cache.get st.cache ⟨url, method, st.body, st.params⟩ st.now =
      none) :
    (∃ msg, (Request.send dsGen oracle st url method ttl).1 = .threw msg) ↔
      sendTransportFails oracle st.retries = true := by
  induction oracle, st, url, method, ttl using Request.send.induct dsGen with
  | case1 oracle st url method ttl _ck env hhit =>
    rw [hhit] at hm
    simp at hm
  | case2 oracle st url method ttl _ck hmiss code msg ho =>
    rw [send_netFail dsGen oracle st url method ttl code msg hmiss ho,
      sendTransportFails, ho]
    simp
  | case3 oracle st url method ttl _ck hmiss ho =>
    rw [send_exotic dsGen oracle st url method ttl hmiss ho,
      sendTransportFails, ho]
    simp
  | case4 oracle st url method ttl _ck hmiss status statusText result ho hs hr ih =>
    rw [send_retry dsGen oracle st url method ttl status statusText result
      hmiss ho hs hr]
    rw [sendTransportFails, ho]
    dsimp only []
    rw [if_pos hs, dif_pos hr]
    have hm2 : Cache.get
        ({ dsStep dsGen st with
          retries := st.retries + 1, now := st.now + 1 } : Request).cache
        ⟨url, method,
          ({ dsStep dsGen st with
            retries := st.retries + 1, now := st.now + 1 } : Request).body,
          ({ dsStep dsGen st with
            retries := st.retries + 1, now := st.now + 1 } : Request).params⟩
        ({ dsStep dsGen st with
          retries := st.retries + 1, now := st.now + 1 } : Request).now =
        none := by
      dsimp only []
      rw [dsStep_cache, dsStep_body, dsStep_params]
      exact Cache.get_none_mono _ _ st.now _ hmiss (by omega)
    exact ih hm2
  | case5 oracle st url method ttl _ck hmiss status statusText result ho hs hr =>
    rw [send_success dsGen oracle st url method ttl status statusText result
      hmiss ho hs hr]
    rw [sendTransportFails, ho]
    dsimp only []
    rw [if_pos hs, dif_neg hr]
    simp
  | case6 oracle st url method ttl _ck hmiss status statusText result ho hs =>
    rw [send_bad_status dsGen oracle st url method ttl status statusText
      result hmiss ho hs]
    rw [sendTransportFails, ho]
    dsimp only []
    rw [if_neg hs]
    simp

/-- C4 (counterexample): HTTP status 204 is a 2xx success, and the
transport did not fail, yet `send` raises the wrapped transport error — the
source accepts only statuses 200 and 201 — so "raises a TransportError iff
the transport fails or returns a non-2xx status" is false as stated. -/
theorem c4_counterexample :
    (200 ≤ 204 ∧ 204 < 300) ∧
    (Request.send (fun _ => "DS")
      (fun _ => .ok 204 "No Content" ⟨0, "", none⟩)
      (Request.new none 0) "u" "GET" none).1 =
      .threw "Request Error: [204] - No Content" := by
  refine ⟨⟨by omega, by omega⟩, ?_⟩
  rw [Request.send]
  rfl

/-- C4 (amended): on a cache miss, `send` throws a `HoyolabError`
(TransportError) iff the attempt sequence ends in a transport failure —
the transport rejecting, or resolving with an HTTP status other than 200
or 201 (note: NOT "non-2xx"; 204 is also thrown); a transport failure on
the first attempt is thrown immediately, never retried; a first-attempt
non-Axios exception is swallowed into the synthetic envelope
`{retcode: -9999, message: "", data: null}`. -/
theorem c4_transport_error_iff (dsGen : Nat → String)
    (oracle : Nat → TransportResult) (st : Request) (url method : String)
    (ttl : Option Nat)
    (hm : Cache.get st.cache ⟨url, method, st.body, st.params⟩ st.now =
      none) :
    ((∃ msg, (Request.send dsGen oracle st url method ttl).1 = .threw msg) ↔
      sendTransportFails oracle st.retries = true) ∧
    (∀ code emsg, oracle 0 = .netFail code emsg →
      Request.send dsGen oracle st url method ttl =
        (.threw ("Request Error: [" ++ code ++ "] - " ++ emsg),
          dsStep dsGen st)) ∧
    (oracle 0 = .exotic →
      (Request.send dsGen oracle st url method ttl).1 =
        .ok ⟨-9999, "", none⟩) := by
  refine ⟨send_threw_iff dsGen oracle st url method ttl hm, ?_, ?_⟩
  · intro code emsg ho
    exact send_netFail dsGen oracle st url method ttl code emsg hm ho
  · intro ho
    rw [send_exotic dsGen oracle st url method ttl hm ho]

/-- C4 (witness): the amended theorem applied to a concrete rejected
transport. -/
theorem c4_transport_error_iff_witness :
    Cache.get (Request.new none 0).cache
      ⟨"u", "GET", (Request.new none 0).body, (Request.new none 0).params⟩
      (Request.new none 0).now = none ∧
    ((∃ msg, (Request.send (fun _ => "DS") oracleNetFail (Request.new none 0)
        "u" "GET" none).1 = .threw msg) ↔
      sendTransportFails oracleNetFail (Request.new none 0).retries = true) :=
  ⟨rfl, (c4_transport_error_iff (fun _ => "DS") oracleNetFail
    (Request.new none 0) "u" "GET" none rfl).1⟩

theorem send_now_le (dsGen : Nat → String) (oracle : Nat → TransportResult)
    (st : Request) (url method : String) (ttl : Option Nat) :
    (Request.send dsGen oracle st url method ttl).2.now ≤
      st.now + (61 - st.retries) := by
  induction oracle, st, url, method, ttl using Request.send.induct dsGen with
  | case1 oracle st url method ttl _ck env hhit =>
    rw [send_hit dsGen oracle st url method ttl env hhit]
    dsimp only []
    omega
  | case2 oracle st url method ttl _ck hmiss code msg ho =>
    rw [send_netFail dsGen oracle st url method ttl code msg hmiss ho]
    dsimp only []
    rw [dsStep_now]
    omega
  | case3 oracle st url method ttl _ck hmiss ho =>
    rw [send_exotic dsGen oracle st url method ttl hmiss ho]
    dsimp only []
    rw [dsStep_now]
    omega
  | case4 oracle st url method ttl _ck hmiss status statusText result ho hs hr ih =>
    rw [send_retry dsGen oracle st url method ttl status statusText result
      hmiss ho hs hr]
    refine le_trans ih ?_
    dsimp only []
    omega
  | case5 oracle st url method ttl _ck hmiss status statusText result ho hs hr =>
    rw [send_success dsGen oracle st url method ttl status statusText result
      hmiss ho hs hr]
    dsimp only []
    rw [dsStep_now]
    omega
  | case6 oracle st url method ttl _ck hmiss status statusText result ho hs =>
    rw [send_bad_status dsGen oracle st url method ttl status statusText
      result hmiss ho hs]
    dsimp only []
    rw [dsStep_now]
    omega

theorem send_all2016 (dsGen : Nat → String) (stx : String) (env : Envelope)
    (henv : env.retcode = -2016) :
    ∀ (k : Nat) (st : Request) (oracle : Nat → TransportResult)
      (url method : String) (ttl : Option Nat),
      st.retries + k = 61 →
      Cache.lookup st.cache ⟨url, method, st.body, st.params⟩ = none →
      (∀ i, oracle i = .ok 200 stx env) →
      (Request.send dsGen oracle st url method ttl).1 = .ok env ∧
      (Request.send dsGen oracle st url method ttl).2.now = st.now + k ∧
      (Request.send dsGen oracle st url method ttl).2.retries = 1 ∧
      (Request.send dsGen oracle st url method ttl).2.body = [] := by
  intro k
  induction k with
  | zero =>
    intro st oracle url method ttl hk hlk ho
    have hm := Cache.get_none_of_lookup _ _ st.now hlk
    have hr : ¬ (env.retcode = -2016 ∧ st.retries ≤ 60) := by
      intro hcon
      omega
    rw [send_success dsGen oracle st url method ttl 200 stx env hm (ho 0)
      (Or.inl rfl) hr]
    refine ⟨rfl, ?_, rfl, rfl⟩
    dsimp only []
    rw [dsStep_now]
    omega
  | succ k ih =>
    intro st oracle url method ttl hk hlk ho
    have hm := Cache.get_none_of_lookup _ _ st.now hlk
    have hr : env.retcode = -2016 ∧ st.retries ≤ 60 := ⟨henv, by omega⟩
    rw [send_retry dsGen oracle st url method ttl 200 stx env hm (ho 0)
      (Or.inl rfl) hr]
    have hlk2 : Cache.lookup
        ({ dsStep dsGen st with
          retries := st.retries + 1, now := st.now + 1 } : Request).cache
        ⟨url, method,
          ({ dsStep dsGen st with
            retries := st.retries + 1, now := st.now + 1 } : Request).body,
          ({ dsStep dsGen st with
            retries := st.retries + 1, now := st.now + 1 } : Request).params⟩ =
        none := by
      dsimp only []
      rw [dsStep_cache, dsStep_body, dsStep_params]
      exact hlk
    obtain ⟨h1, h2, h3, h4⟩ := ih
      { dsStep dsGen st with retries := st.retries + 1, now := st.now + 1 }
      (fun i => oracle (i + 1)) url method none (by dsimp only []; omega)
      hlk2 (fun i => ho (i + 1))
    refine ⟨h1, ?_, h3, h4⟩
    rw [h2]
    dsimp only []
    omega

/-- C1: (i) a resolved `-2016` envelope with `retries ≤ 60` makes `send`
increment the counter, advance the clock by the one-second delay, and
re-invoke itself with the same url and method but with no ttl argument;
(ii) over a whole cycle starting at `retries = 1` against a transport that
answers `-2016` forever, the call performs exactly 60 retries (the clock
gains exactly 60 delay-seconds) and the 61st `-2016` response is returned
as-is (while the counter resets and the body clears on that final success
path); (iii) for any transport whatsoever, a cycle starting at
`retries = 1` delays at most 60 seconds, i.e. at most 60 retries. -/
theorem c1_retry_policy :
    (∀ (dsGen : Nat → String) (oracle : Nat → TransportResult) (st : Request)
      (url method : String) (ttl : Option Nat) (status : Nat) (stx : String)
      (env : Envelope),
      Cache.get st.cache ⟨url, method, st.body, st.params⟩ st.now = none →
      oracle 0 = .ok status stx env →
      (status = 200 ∨ status = 201) →
      env.retcode = -2016 → st.retries ≤ 60 →
      Request.send dsGen oracle st url method ttl =
        Request.send dsGen (fun i => oracle (i + 1))
          { dsStep dsGen st with
            retries := st.retries + 1, now := st.now + 1 }
          url method none) ∧
    (∀ (dsGen : Nat → String) (oracle : Nat → TransportResult) (st : Request)
      (url method : String) (ttl : Option Nat) (stx : String)
      (env : Envelope),
      st.retries = 1 →
      Cache.lookup st.cache ⟨url, method, st.body, st.params⟩ = none →
      (∀ i, oracle i = .ok 200 stx env) →
      env.retcode = -2016 →
      (Request.send dsGen oracle st url method ttl).1 = .ok env ∧
      (Request.send dsGen oracle st url method ttl).2.now = st.now + 60 ∧
      (Request.send dsGen oracle st url method ttl).2.retries = 1 ∧
      (Request.send dsGen oracle st url method ttl).2.body = []) ∧
    (∀ (dsGen : Nat → String) (oracle : Nat → TransportResult) (st : Request)
      (url method : String) (ttl : Option Nat),
      st.retries = 1 →
      (Request.send dsGen oracle st url method ttl).2.now ≤ st.now + 60) := by
  refine ⟨?_, ?_, ?_⟩
  · intro dsGen oracle st url method ttl status stx env hm ho hs henv hretr
    exact send_retry dsGen oracle st url method ttl status stx env hm ho hs
      ⟨henv, hretr⟩
  · intro dsGen oracle st url method ttl stx env h1 hlk ho henv
    exact send_all2016 dsGen stx env henv 60 st oracle url method ttl
      (by omega) hlk ho
  · intro dsGen oracle st url method ttl h1
    have := send_now_le dsGen oracle st url method ttl
    omega

/-- A `-2016` (rate-limited) envelope and a transport that always returns
it. -/
def env2016 : Envelope := ⟨-2016, "visit too frequently", none⟩

/-- The all-`-2016` transport oracle. -/
def oracle2016 : Nat → TransportResult := fun _ => .ok 200 "OK" env2016

/-- C1 (witness): part (ii) of the theorem applied to the fresh request and
the all-`-2016` transport. -/
theorem c1_retry_policy_witness :
    ((Request.new none 0).retries = 1 ∧
      Cache.lookup (Request.new none 0).cache
        ⟨"u", "GET", (Request.new none 0).body,
          (Request.new none 0).params⟩ = none ∧
      env2016.retcode = -2016) ∧
    (Request.send (fun _ => "DS") oracle2016 (Request.new none 0) "u" "GET"
      (some 120)).1 = .ok env2016 ∧
    (Request.send (fun _ => "DS") oracle2016 (Request.new none 0) "u" "GET"
      (some 120)).2.now = (Request.new none 0).now + 60 ∧
    (Request.send (fun _ => "DS") oracle2016 (Request.new none 0) "u" "GET"
      (some 120)).2.retries = 1 ∧
    (Request.send (fun _ => "DS") oracle2016 (Request.new none 0) "u" "GET"
      (some 120)).2.body = [] :=
  ⟨⟨rfl, rfl, rfl⟩,
    c1_retry_policy.2.1 (fun _ => "DS") oracle2016 (Request.new none 0) "u"
      "GET" (some 120) "OK" env2016 rfl rfl (fun _ => rfl) rfl⟩

/-- C2: after a first `send` that misses the cache and succeeds (2xx,
non-`-2016` envelope `env`), (i) the call returned `env`; (ii) any second
`send` with the same url, method, body and params against the resulting
cache, made while the TTL window of the entry is still open (the given ttl
— with node-cache's "ttl 0 never expires" — or the 30-second default),
returns the identical cached envelope and leaves the state completely
unchanged, for EVERY transport oracle — i.e. no transport call can be
observed; (iii) once the window has elapsed the lookup misses and a fresh
transport call determines the result. -/
theorem c2_cache_window (dsGen : Nat → String)
    (o1 : Nat → TransportResult) (st : Request) (url method : String)
    (ttl : Option Nat) (stx : String) (env : Envelope)
    (hm : Cache.get st.cache ⟨url, method, st.body, st.params⟩ st.now = none)
    (ho : o1 0 = .ok 200 stx env)
    (henv : env.retcode ≠ -2016) :
    (Request.send dsGen o1 st url method ttl).1 = .ok env ∧
    (∀ (o2 : Nat → TransportResult) (st2 : Request) (ttl2 : Option Nat),
      st2.cache = (Request.send dsGen o1 st url method ttl).2.cache →
      st2.body = st.body → st2.params = st.params →
      (ttl.getD 30 = 0 ∨ st2.now ≤ st.now + ttl.getD 30) →
      Request.send dsGen o2 st2 url method ttl2 = (.ok env, st2)) ∧
    (∀ (o2 : Nat → TransportResult) (st2 : Request) (ttl2 : Option Nat)
      (stx' : String) (env' : Envelope),
      st2.cache = (Request.send dsGen o1 st url method ttl).2.cache →
      st2.body = st.body → st2.params = st.params →
      ¬ (ttl.getD 30 = 0 ∨ st2.now ≤ st.now + ttl.getD 30) →
      o2 0 = .ok 200 stx' env' → env'.retcode ≠ -2016 →
      Cache.get st2.cache ⟨url, method, st2.body, st2.params⟩ st2.now =
        none ∧
      (Request.send dsGen o2 st2 url method ttl2).1 = .ok env') := by
  have hr : ¬ (env.retcode = -2016 ∧ st.retries ≤ 60) := by
    intro hcon
    exact henv hcon.1
  have hsend := send_success dsGen o1 st url method ttl 200 stx env hm ho
    (Or.inl rfl) hr
  refine ⟨by rw [hsend], ?_, ?_⟩
  · intro o2 st2 ttl2 hc hb hp hw
    have hcache : st2.cache =
        Cache.set st.cache ⟨url, method, st.body, st.params⟩ env ttl
          st.now := by
      rw [hc, hsend]
      dsimp only []
      rw [dsStep_cache]
    have hhit : Cache.get st2.cache ⟨url, method, st2.body, st2.params⟩
        st2.now = some env := by
      rw [hcache, hb, hp, Cache.get_set_same, if_pos hw]
    rw [send_hit dsGen o2 st2 url method ttl2 env hhit]
  · intro o2 st2 ttl2 stx' env' hc hb hp hw ho2 henv'
    have hcache : st2.cache =
        Cache.set st.cache ⟨url, method, st.body, st.params⟩ env ttl
          st.now := by
      rw [hc, hsend]
      dsimp only []
      rw [dsStep_cache]
    have hmiss2 : Cache.get st2.cache ⟨url, method, st2.body, st2.params⟩
        st2.now = none := by
      rw [hcache, hb, hp, Cache.get_set_same, if_neg hw]
    have hr' : ¬ (env'.retcode = -2016 ∧ st2.retries ≤ 60) := by
      intro hcon
      exact henv' hcon.1
    refine ⟨hmiss2, ?_⟩
    rw [send_success dsGen o2 st2 url method ttl2 200 stx' env' hmiss2 ho2
      (Or.inl rfl) hr']

/-- A plain successful envelope and its constant transport oracle. -/
def envOK : Envelope := ⟨0, "OK", some "payload"⟩

/-- The always-successful transport oracle. -/
def oracleOK : Nat → TransportResult := fun _ => .ok 200 "OK" envOK

/-- The request state after a first successful `send` of `oracleOK` from
`Request.new none 0` with no explicit ttl: the response is cached for the
default 30 seconds. -/
def stAfterOK : Request :=
  { Request.new none 0 with
    cache := Cache.set (Request.new none 0).cache
      ⟨"u", "GET", (Request.new none 0).body, (Request.new none 0).params⟩
      envOK none 0
    body := [] }

/-- C2 (witness): the theorem applied to a concrete first call; the second
call within the window returns the cached envelope even against a transport
that would reject. -/
theorem c2_cache_window_witness :
    ((none : Option Nat).getD 30 = 0 ∨
      stAfterOK.now ≤ (Request.new none 0).now +
        (none : Option Nat).getD 30) ∧
    Request.send (fun _ => "DS") oracleNetFail stAfterOK "u" "GET" none =
      (.ok envOK, stAfterOK) := by
  have hthm := c2_cache_window (fun _ => "DS") oracleOK (Request.new none 0)
    "u" "GET" none "OK" envOK rfl rfl (by decide)
  have hcache : stAfterOK.cache =
      (Request.send (fun _ => "DS") oracleOK (Request.new none 0) "u" "GET"
        none).2.cache := by
    rw [send_success (fun _ => "DS") oracleOK (Request.new none 0) "u" "GET"
      none 200 "OK" envOK rfl rfl (Or.inl rfl) (by decide)]
    rfl
  exact ⟨Or.inr (by decide),
    hthm.2.1 oracleNetFail stAfterOK none hcache rfl rfl
      (Or.inr (by decide))⟩

theorem send_params_headers_frame (dsGen : Nat → String)
    (oracle : Nat → TransportResult) (st : Request) (url method : String)
    (ttl : Option Nat) :
    (Request.send dsGen oracle st url method ttl).2.params = st.params ∧
    ∀ h, h ≠ "DS" →
      hdrGet (Request.send dsGen oracle st url method ttl).2.headers h =
        hdrGet st.headers h := by
  induction oracle, st, url, method, ttl using Request.send.induct dsGen with
  | case1 oracle st url method ttl _ck env hhit =>
    rw [send_hit dsGen oracle st url method ttl env hhit]
    exact ⟨rfl, fun h _ => rfl⟩
  | case2 oracle st url method ttl _ck hmiss code msg ho =>
    rw [send_netFail dsGen oracle st url method ttl code msg hmiss ho]
    exact ⟨dsStep_params dsGen st, fun h hh => dsStep_headers_other dsGen st h hh⟩
  | case3 oracle st url method ttl _ck hmiss ho =>
    rw [send_exotic dsGen oracle st url method ttl hmiss ho]
    exact ⟨dsStep_params dsGen st, fun h hh => dsStep_headers_other dsGen st h hh⟩
  | case4 oracle st url method ttl _ck hmiss status statusText result ho hs hr ih =>
    rw [send_retry dsGen oracle st url method ttl status statusText result
      hmiss ho hs hr]
    obtain ⟨hp, hh⟩ := ih
    constructor
    · rw [hp]
      dsimp only []
      exact dsStep_params dsGen st
    · intro h hne
      rw [hh h hne]
      dsimp only []
      exact dsStep_headers_other dsGen st h hne
  | case5 oracle st url method ttl _ck hmiss status statusText result ho hs hr =>
    rw [send_success dsGen oracle st url method ttl status statusText result
      hmiss ho hs hr]
    exact ⟨dsStep_params dsGen st, fun h hh => dsStep_headers_other dsGen st h hh⟩
  | case6 oracle st url method ttl _ck hmiss status statusText result ho hs =>
    rw [send_bad_status dsGen oracle st url method ttl status statusText
      result hmiss ho hs]
    exact ⟨dsStep_params dsGen st, fun h hh => dsStep_headers_other dsGen st h hh⟩

/-- A request state with a pending body and the `ds` signature flag on. -/
def stDs : Request :=
  { retries := 1, headers := [], body := [("act_id", .str "e202102251931481")],
    params := [], cache := [], ds := true, now := 0 }

/-- C3 (counterexample): a `send` that completes through the
swallowed-exception path leaves `bodyFields` non-empty, and (with the
signature flag on) has rewritten the `DS` header — so "after every send
that completes, bodyFields is empty and the headers are unchanged" is false
as stated. -/
theorem c3_counterexample :
    (Request.send (fun _ => "TOKEN") (fun _ => .exotic) stDs "u" "GET"
      none).1 = .ok ⟨-9999, "", none⟩ ∧
    (Request.send (fun _ => "TOKEN") (fun _ => .exotic) stDs "u" "GET"
      none).2.body ≠ [] ∧
    hdrGet (Request.send (fun _ => "TOKEN") (fun _ => .exotic) stDs "u"
      "GET" none).2.headers "DS" ≠ hdrGet stDs.headers "DS" := by
  have h := send_exotic (fun _ => "TOKEN") (fun _ => .exotic) stDs "u" "GET"
    none rfl rfl
  rw [h]
  exact ⟨rfl, by decide, by decide⟩

/-- C3 (amended): `queryParams` are unchanged by every `send`, and every
header except `DS` is unchanged (`DS` is rewritten whenever the signature
flag is set and the transport is reached); `bodyFields` is cleared — and
the response cached under the freshly computed key with the given ttl (or
the node-cache default of 30 s) and the retry counter reset to 1 — exactly
on the successful non-retried path, not on cache-hit, transport-error or
swallowed-exception paths. -/
theorem c3_success_path_effects :
    (∀ (dsGen : Nat → String) (oracle : Nat → TransportResult) (st : Request)
      (url method : String) (ttl : Option Nat) (status : Nat) (stx : String)
      (env : Envelope),
      Cache.get st.cache ⟨url, method, st.body, st.params⟩ st.now = none →
      oracle 0 = .ok status stx env →
      (status = 200 ∨ status = 201) →
      env.retcode ≠ -2016 →
      (Request.send dsGen oracle st url method ttl).1 = .ok env ∧
      (Request.send dsGen oracle st url method ttl).2.body = [] ∧
      (Request.send dsGen oracle st url method ttl).2.retries = 1 ∧
      Cache.lookup (Request.send dsGen oracle st url method ttl).2.cache
          ⟨url, method, st.body, st.params⟩ =
        some ⟨env, if ttl.getD 30 = 0 then none
          else some (st.now + ttl.getD 30)⟩) ∧
    (∀ (dsGen : Nat → String) (oracle : Nat → TransportResult) (st : Request)
      (url method : String) (ttl : Option Nat),
      (Request.send dsGen oracle st url method ttl).2.params = st.params ∧
      ∀ h, h ≠ "DS" →
        hdrGet (Request.send dsGen oracle st url method ttl).2.headers h =
          hdrGet st.headers h) := by
  constructor
  · intro dsGen oracle st url method ttl status stx env hm ho hs henv
    have hr : ¬ (env.retcode = -2016 ∧ st.retries ≤ 60) := by
      intro hcon
      exact henv hcon.1
    rw [send_success dsGen oracle st url method ttl status stx env hm ho hs
      hr]
    exact ⟨rfl, rfl, rfl, Cache.lookup_set_same _ _ _ _ _⟩
  · intro dsGen oracle st url method ttl
    exact send_params_headers_frame dsGen oracle st url method ttl

/-- C3 (witness): the success part applied to a concrete fresh request and
transport. -/
theorem c3_success_path_effects_witness :
    (Cache.get (Request.new none 0).cache
        ⟨"u", "GET", (Request.new none 0).body, (Request.new none 0).params⟩
        (Request.new none 0).now = none ∧
      envOK.retcode ≠ -2016) ∧
    ((Request.send (fun _ => "DS") oracleOK (Request.new none 0) "u" "GET"
        none).1 = .ok envOK ∧
      (Request.send (fun _ => "DS") oracleOK (Request.new none 0) "u" "GET"
        none).2.body = [] ∧
      (Request.send (fun _ => "DS") oracleOK (Request.new none 0) "u" "GET"
        none).2.retries = 1 ∧
      Cache.lookup (Request.send (fun _ => "DS") oracleOK
          (Request.new none 0) "u" "GET" none).2.cache
          ⟨"u", "GET", (Request.new none 0).body,
            (Request.new none 0).params⟩ =
        some ⟨envOK, if (none : Option Nat).getD 30 = 0 then none
          else some ((Request.new none 0).now +
            (none : Option Nat).getD 30)⟩) :=
  ⟨⟨rfl, by decide⟩,
    c3_success_path_effects.1 (fun _ => "DS") oracleOK (Request.new none 0)
      "u" "GET" none 200 "OK" envOK rfl rfl (Or.inl rfl) (by decide)⟩

/-! ## C5: the parse → serialize → parse round trip -/

/-- C5 (counterexample): `"ltoken=a%3Bb; ltuid=1"` is a valid cookie string
containing both `ltoken` and `ltuid`, but its decoded `ltoken` value
`"a;b"` contains a `;`, so serializing and re-parsing truncates it to
`"a"`: the round trip does not preserve the required fields. -/
theorem c5_counterexample :
    parseCookieString "ltoken=a%3Bb; ltuid=1" =
      .ok [("ltoken", .str "a;b"), ("ltuid", .num (.val 1)),
        ("accountId", .num (.val 1))] ∧
    parseCookieString
        (parseCookie [("ltoken", .str "a;b"), ("ltuid", .num (.val 1)),
          ("accountId", .num (.val 1))]).2 =
      .ok [("ltoken", .str "a"), ("ltuid", .num (.val 1)),
        ("accountId", .num (.val 1))] ∧
    JsVal.str "a" ≠ JsVal.str "a;b" := by
  exact ⟨rfl, rfl, by decide⟩

/-- A character that survives the cookie round trip: not a separator
(`;`, `=`), not a percent-escape starter, not JS whitespace. -/
def benignChar (c : Char) : Bool :=
  c ≠ ';' ∧ c ≠ '=' ∧ c ≠ '%' ∧ ¬ jsWhitespace c

/-- A string of benign characters. -/
def benignStr (s : String) : Bool := s.data.all benignChar

/-- Well-formedness of one parsed-cookie entry: the key is one of the five
recognized camel-case keys and the value has the type the parser stores
(`mi18nLang` always holds a `LanguageEnum` code). -/
def EntryShape (e : String × JsVal) : Prop :=
  (e.1 = "ltoken" ∧ ∃ s, e.2 = .str s) ∨
  (e.1 = "ltuid" ∧ ∃ j, e.2 = .num j) ∨
  (e.1 = "accountId" ∧ ∃ j, e.2 = .num j) ∨
  (e.1 = "cookieToken" ∧ ∃ s, e.2 = .str s) ∨
  (e.1 = "mi18nLang" ∧ ∃ s, s ∈ langCodes ∧ e.2 = .str s)

/-- Well-formedness of a parsed cookie object: entry shapes plus unique
keys. -/
def CookieShape (o : JsObj) : Prop :=
  (∀ e ∈ o, EntryShape e) ∧ (o.map Prod.fst).Nodup

/-- All string values stored in the object are benign. -/
def BenignVals (o : JsObj) : Prop :=
  ∀ k v, (k, JsVal.str v) ∈ o → benignStr v = true

theorem splitChL_no_sep (sep : Char) (cs : List Char)
    (h : ∀ c ∈ cs, c ≠ sep) : splitChL sep cs = [cs] := by
  induction cs with
  | nil => rfl
  | cons c cs ih =>
    simp only [splitChL, ih (fun x hx => h x (by simp [hx])),
      if_neg (h c (by simp))]
    rfl

theorem splitChL_append_sep (sep : Char) (xs ys : List Char)
    (hx : ∀ c ∈ xs, c ≠ sep) :
    splitChL sep (xs ++ sep :: ys) = xs :: splitChL sep ys := by
  induction xs with
  | nil => simp [splitChL]
  | cons x xs ih =>
    simp only [List.cons_append, splitChL, if_neg (hx x (by simp))]
    rw [List.append_eq, ih (fun c hc => hx c (by simp [hc]))]
    rfl

theorem trimJS_cons_ws (c : Char) (cs : List Char)
    (h : jsWhitespace c = true) : trimJS ⟨c :: cs⟩ = trimJS ⟨cs⟩ := by
  unfold trimJS
  rw [show (String.mk (c :: cs)).data = c :: cs from rfl,
    show (String.mk cs).data = cs from rfl, List.dropWhile_cons, h]
  simp

theorem processPair_congr (obj : JsObj) (p q : String)
    (h : trimJS p = trimJS q) : processPair obj p = processPair obj q := by
  unfold processPair
  rw [h]

theorem foldlM_processPair_space (qs : List String) (obj : JsObj) :
    (qs.map (fun p => " " ++ p)).foldlM processPair obj =
      qs.foldlM processPair obj := by
  induction qs generalizing obj with
  | nil => rfl
  | cons q qs ih =>
    rw [List.map_cons, List.foldlM_cons, List.foldlM_cons]
    rw [processPair_congr obj (" " ++ q) q (by
      have : (" " ++ q).data = ' ' :: q.data := rfl
      rw [show (" " ++ q) = String.mk (' ' :: q.data) from by
        cases q; rfl]
      rw [trimJS_cons_ws ' ' q.data (by decide)])]
    cases processPair obj q with
    | error e => rfl
    | ok obj1 => exact ih obj1

theorem splitCh_joinSep (ps : List String) : ∀ (p0 : String),
    (∀ c ∈ p0.data, c ≠ ';') →
    (∀ p ∈ ps, ∀ c ∈ p.data, c ≠ ';') →
    splitCh ';' (joinSep "; " (p0 :: ps)) =
      p0 :: ps.map (fun p => " " ++ p) := by
  induction ps with
  | nil =>
    intro p0 h0 _
    unfold splitCh
    rw [show joinSep "; " [p0] = p0 from rfl, splitChL_no_sep ';' p0.data h0]
    cases p0
    rfl
  | cons q qs ih =>
    intro p0 h0 h
    have hq : ∀ c ∈ q.data, c ≠ ';' := h q (by simp)
    have hqs : ∀ p ∈ qs, ∀ c ∈ p.data, c ≠ ';' :=
      fun p hp => h p (by simp [hp])
    have ihq := ih q hq hqs
    unfold splitCh
    rw [show joinSep "; " (p0 :: q :: qs) =
      p0 ++ "; " ++ joinSep "; " (q :: qs) from rfl]
    rw [show (p0 ++ "; " ++ joinSep "; " (q :: qs)).data =
        p0.data ++ ';' :: ' ' :: (joinSep "; " (q :: qs)).data from by
      simp [String.data_append]]
    rw [splitChL_append_sep ';' p0.data _ h0]
    obtain ⟨l0, lrest, hL⟩ : ∃ l0 lrest,
        splitChL ';' (joinSep "; " (q :: qs)).data = l0 :: lrest := by
      cases hL : splitChL ';' (joinSep "; " (q :: qs)).data with
      | nil => exact absurd hL (splitChL_ne_nil ';' _)
      | cons a b => exact ⟨a, b, rfl⟩
    have hmk : (String.mk l0) :: lrest.map (fun cs => (⟨cs⟩ : String)) =
        q :: qs.map (fun p => " " ++ p) := by
      have := ihq
      unfold splitCh at this
      rw [hL] at this
      simpa using this
    have hmk0 : (String.mk l0) = q := (List.cons.injEq _ _ _ _ ▸ hmk).1
    have hmkrest : lrest.map (fun cs => (⟨cs⟩ : String)) =
        qs.map (fun p => " " ++ p) := (List.cons.injEq _ _ _ _ ▸ hmk).2
    have hl0 : l0 = q.data := by rw [← hmk0]
    rw [show splitChL ';' (' ' :: (joinSep "; " (q :: qs)).data) =
        (' ' :: l0) :: lrest from by
      simp only [splitChL, hL]
      rw [if_neg (by decide)]
      rfl]
    have hsp : (⟨' ' :: l0⟩ : String) = " " ++ q := by
      rw [hl0]
      cases q
      rfl
    have hp0 : (⟨p0.data⟩ : String) = p0 := by
      cases p0
      rfl
    simp only [List.map_cons, hmkrest, hsp, hp0]

/-- The value `processPair` finally stores for a recognized key. -/
def interpKey (k v : String) : JsVal :=
  if k = "ltuid" ∨ k = "account_id" then .num (parseIntJS v)
  else if k = "mi18nLang" then .str (parseLang v)
  else .str v

theorem benignStr_spec (v : String) (hv : benignStr v = true) :
    ∀ c ∈ v.data, c ≠ ';' ∧ c ≠ '=' ∧ c ≠ '%' ∧ jsWhitespace c = false := by
  intro c hc
  have hb := (List.all_eq_true.mp hv) c hc
  simp only [benignChar, decide_eq_true_eq] at hb
  obtain ⟨h1, h2, h3, h4⟩ := hb
  exact ⟨h1, h2, h3, by simpa using h4⟩

theorem processPair_benign_pair (obj : JsObj) (k v : String)
    (hk : k ∈ cookieStringKeys) (hv : benignStr v = true) (hne : v ≠ "") :
    processPair obj (k ++ "=" ++ v) =
      .ok (objSet obj (toCamelCase k) (interpKey k v)) := by
  have hvs := benignStr_spec v hv
  have hkw : ∀ c ∈ k.data, jsWhitespace c = false := by
    fin_cases hk <;> decide
  have hkeq : ∀ c ∈ k.data, c ≠ '=' := by
    fin_cases hk <;> decide
  have hdata : (k ++ "=" ++ v).data = k.data ++ '=' :: v.data := by
    simp [String.data_append]
  have htrim : trimJS (k ++ "=" ++ v) = k ++ "=" ++ v := by
    apply trimJS_id
    rw [hdata]
    intro c hc
    rcases List.mem_append.mp hc with hc | hc
    · exact hkw c hc
    · rcases List.mem_cons.mp hc with hc | hc
      · subst hc; decide
      · exact (hvs c hc).2.2.2
  have hsplit : splitCh '=' (k ++ "=" ++ v) = [k, v] := by
    unfold splitCh
    rw [hdata, splitChL_append_sep '=' k.data v.data hkeq,
      splitChL_no_sep '=' v.data (fun c hc => (hvs c hc).2.1)]
    cases k
    cases v
    rfl
  have hdec : decodeArgJS (some v) = some v := by
    show (decodeURIL v.data).map (fun cs => (⟨cs⟩ : String)) = some v
    rw [decodeURIL_no_pct v.data (fun c hc => (hvs c hc).2.2.1)]
    cases v
    rfl
  simp only [processPair, htrim, hsplit]
  rw [if_pos (by simpa using hk)]
  simp only [List.headD_cons, List.get?]
  rw [hdec]
  dsimp only []
  unfold interpKey
  by_cases h1 : k = "ltuid" ∨ k = "account_id"
  · rw [if_pos h1, if_pos h1, objSet_objSet_same]
  · rw [if_neg h1, if_neg h1]
    by_cases h2 : k = "mi18nLang"
    · rw [if_pos h2, if_pos h2, objSet_objSet_same]
    · rw [if_neg h2, if_neg h2]

theorem parseLang_mem (v : String) : parseLang v ∈ langCodes := by
  unfold parseLang
  split
  · decide
  · split
    · assumption
    · decide

theorem keys_objSet (o : JsObj) (k : String) (v : JsVal) :
    (objSet o k v).map Prod.fst =
      if o.any (fun e => e.1 = k) then o.map Prod.fst
      else o.map Prod.fst ++ [k] := by
  unfold objSet
  split
  · rw [List.map_map]
    apply List.map_congr_left
    intro e _
    by_cases he : e.1 = k <;> simp [he]
  · simp

theorem nodup_keys_objSet (o : JsObj) (k : String) (v : JsVal)
    (h : (o.map Prod.fst).Nodup) : ((objSet o k v).map Prod.fst).Nodup := by
  rw [keys_objSet]
  split
  · exact h
  · rename_i hany
    rw [List.nodup_append]
    refine ⟨h, List.nodup_singleton k, ?_⟩
    intro a ha hb
    simp at hb
    subst hb
    rcases List.mem_map.mp ha with ⟨e, he, hek⟩
    apply hany
    rw [List.any_eq_true]
    exact ⟨e, he, by simpa using hek⟩

theorem shape_objSet (o : JsObj) (k : String) (v : JsVal)
    (ho : ∀ e ∈ o, EntryShape e) (hkv : EntryShape (k, v)) :
    ∀ e ∈ objSet o k v, EntryShape e := by
  intro e he
  unfold objSet at he
  split at he
  · rcases List.mem_map.mp he with ⟨f, hf, hfe⟩
    by_cases hfk : f.1 = k
    · rw [if_pos hfk] at hfe
      rw [← hfe]
      exact hkv
    · rw [if_neg hfk] at hfe
      rw [← hfe]
      exact ho f hf
  · rcases List.mem_append.mp he with he | he
    · exact ho e he
    · simp at he
      rw [he]
      exact hkv

theorem cookieShape_objSet (o : JsObj) (k : String) (v : JsVal)
    (ho : CookieShape o) (hkv : EntryShape (k, v)) :
    CookieShape (objSet o k v) :=
  ⟨shape_objSet o k v ho.1 hkv, nodup_keys_objSet o k v ho.2⟩

theorem processPair_shape (obj obj' : JsObj) (p : String)
    (ho : CookieShape obj) (h : processPair obj p = .ok obj') :
    CookieShape obj' := by
  simp only [processPair] at h
  split at h
  case isFalse =>
    simp at h
    rw [← h]
    exact ho
  case isTrue hmem =>
    split at h
    · simp at h
    · rename_i v hv
      split at h
      case isTrue hcond =>
        simp only [Except.ok.injEq] at h
        rw [← h, objSet_objSet_same]
        apply cookieShape_objSet _ _ _ ho
        unfold EntryShape
        rcases hcond with hc | hc
        · rw [hc]
          exact Or.inr (Or.inl
            ⟨(by decide : toCamelCase "ltuid" = "ltuid"), parseIntJS v, rfl⟩)
        · rw [hc]
          exact Or.inr (Or.inr (Or.inl
            ⟨(by decide : toCamelCase "account_id" = "accountId"),
              parseIntJS v, rfl⟩))
      case isFalse hcond =>
        split at h
        case isTrue hcond2 =>
          simp only [Except.ok.injEq] at h
          rw [← h, objSet_objSet_same]
          apply cookieShape_objSet _ _ _ ho
          unfold EntryShape
          rw [hcond2]
          exact Or.inr (Or.inr (Or.inr (Or.inr
            ⟨(by decide : toCamelCase "mi18nLang" = "mi18nLang"),
              parseLang v, parseLang_mem v, rfl⟩)))
        case isFalse hcond2 =>
          simp only [Except.ok.injEq] at h
          rw [← h]
          apply cookieShape_objSet _ _ _ ho
          unfold EntryShape
          have hmem2 := hmem
          simp only [cookieStringKeys, List.mem_cons, List.not_mem_nil,
            or_false] at hmem2
          rcases hmem2 with hk | hk | hk | hk | hk
          · rw [hk]
            exact Or.inl ⟨(by decide : toCamelCase "ltoken" = "ltoken"), v, rfl⟩
          · exact absurd (Or.inl hk) hcond
          · exact absurd (Or.inr hk) hcond
          · rw [hk]
            exact Or.inr (Or.inr (Or.inr (Or.inl
              ⟨(by decide : toCamelCase "cookie_token" = "cookieToken"),
                v, rfl⟩)))
          · exact absurd hk hcond2

theorem objGet_mem (o : JsObj) (k : String) (h : objGet o k ≠ .undef) :
    (k, objGet o k) ∈ o := by
  unfold objGet at h ⊢
  cases hf : o.find? (fun e => e.1 = k) with
  | none => rw [hf] at h; simp at h
  | some e =>
    dsimp only []
    have hm := List.mem_of_find?_eq_some hf
    have hp := List.find?_some hf
    have hek : e.1 = k := by simpa using hp
    rw [← hek]
    exact hm

theorem shape_get_num (o : JsObj) (h : CookieShape o) (k : String)
    (hk : k = "ltuid" ∨ k = "accountId")
    (ht : truthy (objGet o k) = true) :
    ∃ n : Int, objGet o k = .num (.val n) ∧ n ≠ 0 := by
  have hne : objGet o k ≠ .undef := by
    intro he
    rw [he] at ht
    simp [truthy] at ht
  have hmem := objGet_mem o k hne
  have hsh := h.1 _ hmem
  unfold EntryShape at hsh
  have hdisp : ∃ j, objGet o k = JsVal.num j := by
    rcases hsh with ⟨he, s, hs⟩ | ⟨he, j, hj⟩ | ⟨he, j, hj⟩ | ⟨he, s, hs⟩ |
        ⟨he, s, _, hs⟩
    · exfalso; rcases hk with hk | hk <;> (subst hk; simp at he)
    · exact ⟨j, hj⟩
    · exact ⟨j, hj⟩
    · exfalso; rcases hk with hk | hk <;> (subst hk; simp at he)
    · exfalso; rcases hk with hk | hk <;> (subst hk; simp at he)
  obtain ⟨j, hj⟩ := hdisp
  cases j with
  | nan => rw [hj] at ht; simp [truthy] at ht
  | val n =>
    refine ⟨n, hj, ?_⟩
    rw [hj] at ht
    simpa [truthy] using ht

theorem foldlM_processPair_shape (ps : List String) : ∀ obj obj' : JsObj,
    CookieShape obj → ps.foldlM processPair obj = .ok obj' →
    CookieShape obj' := by
  induction ps with
  | nil =>
    intro obj obj' h hf
    exact (Except.ok.inj hf) ▸ h
  | cons p ps ih =>
    intro obj obj' h hf
    rw [List.foldlM_cons] at hf
    cases hpp : processPair obj p with
    | error e =>
      rw [hpp] at hf
      exact Except.noConfusion hf
    | ok obj1 =>
      rw [hpp] at hf
      exact ih obj1 obj' (processPair_shape obj obj1 p h hpp) hf

theorem deriveAccountPair_shape (o : JsObj) (h : CookieShape o) :
    CookieShape (deriveAccountPair o) := by
  unfold deriveAccountPair
  split
  case isTrue hc =>
    obtain ⟨n, hn, _⟩ := shape_get_num o h "ltuid" (Or.inl rfl) hc.1
    apply cookieShape_objSet _ _ _ h
    unfold EntryShape
    rw [hn]
    exact Or.inr (Or.inr (Or.inl ⟨rfl, .val n, rfl⟩))
  case isFalse =>
    split
    case isTrue hc =>
      obtain ⟨n, hn, _⟩ := shape_get_num o h "accountId" (Or.inr rfl) hc.2
      apply cookieShape_objSet _ _ _ h
      unfold EntryShape
      rw [hn]
      exact Or.inr (Or.inl ⟨rfl, .val n, rfl⟩)
    case isFalse => exact h

theorem deriveAccountPair_get_ltuid_truthy (o : JsObj)
    (h : truthy (objGet o "ltuid") = true) :
    objGet (deriveAccountPair o) "ltuid" = objGet o "ltuid" := by
  unfold deriveAccountPair
  split
  · exact objGet_objSet_other _ _ _ _ (by decide)
  · split
    case isTrue hc => exact absurd h (by simpa using hc.1)
    case isFalse => rfl

theorem parseCookieString_ok_shape (s : String) (c : JsObj)
    (h : parseCookieString s = .ok c) :
    CookieShape c ∧ truthy (objGet c "ltoken") = true ∧
      truthy (objGet c "ltuid") = true := by
  cases hf : (splitCh ';' s).foldlM processPair [] with
  | error e =>
    rw [parseCookieString_error_fold s e hf] at h
    simp at h
  | ok obj =>
    rw [parseCookieString_ok_fold s obj hf] at h
    split at h
    · simp at h
    · rename_i hcond
      push_neg at hcond
      simp only [Except.ok.injEq] at h
      rw [← h]
      refine ⟨deriveAccountPair_shape obj ?_, ?_, ?_⟩
      · exact foldlM_processPair_shape _ [] obj ⟨by simp, by simp⟩ hf
      · simpa using hcond.1
      · simpa using hcond.2

/-- The serialization of one truthy entry inside `parseCookie`. -/
def serEntry (e : String × JsVal) : String :=
  (if e.1 = "cookieToken" ∨ e.1 = "accountId" then toSnakeCase e.1 else e.1)
    ++ "=" ++ jsValToString e.2

theorem parseCookie_snd (c : JsObj) :
    (parseCookie c).2 =
      joinSep "; " (((parseCookie c).1.filter
        (fun e => truthy e.2)).map serEntry) := rfl

theorem benign_jsIntToString (n : Int) :
    benignStr (jsIntToString n) = true := by
  have hdig : ∀ m : Nat, ∀ c ∈ (natDigitsRev m).reverse, benignChar c = true := by
    intro m c hc
    have hd := natDigitsRev_mem_digit m c (by simpa using hc)
    have h1 : 48 ≤ c.toNat := hd.1
    have h2 : c.toNat ≤ 57 := hd.2
    simp only [benignChar, decide_eq_true_eq]
    refine ⟨?_, ?_, ?_, ?_⟩
    · intro he; rw [he] at h2; exact absurd h2 (by decide)
    · intro he; rw [he] at h2; exact absurd h2 (by decide)
    · intro he; rw [he] at h1; exact absurd h1 (by decide)
    · simp [not_jsWhitespace_of_range c (by omega) (by omega)]
  unfold jsIntToString
  split
  · unfold benignStr
    rw [List.all_eq_true]
    intro c hc
    rw [show (String.mk ('-' :: (natDigitsRev n.natAbs).reverse)).data =
      '-' :: (natDigitsRev n.natAbs).reverse from rfl] at hc
    rcases List.mem_cons.mp hc with hc | hc
    · subst hc; decide
    · exact hdig n.natAbs c hc
  · unfold benignStr jsNatToString
    rw [List.all_eq_true]
    intro c hc
    exact hdig n.natAbs c (by simpa using hc)

theorem langCodes_benign : ∀ l ∈ langCodes, benignStr l = true := by
  decide

theorem langCodes_ne_empty : ∀ l ∈ langCodes, l ≠ "" := by
  decide

theorem parseLang_fix (l : String) (h : l ∈ langCodes) : parseLang l = l := by
  unfold parseLang
  rw [if_neg (langCodes_ne_empty l h), if_pos h]

theorem jsIntToString_ne_empty (n : Int) : jsIntToString n ≠ "" := by
  unfold jsIntToString
  split
  · intro h
    exact absurd (congrArg String.data h) (by simp)
  · unfold jsNatToString
    intro h
    have hd := congrArg String.data h
    simp at hd
    exact absurd hd (natDigitsRev_ne_nil n.natAbs)

theorem serEntry_good (e : String × JsVal) (hsh : EntryShape e)
    (hben : ∀ v, e.2 = JsVal.str v → benignStr v = true)
    (ht : truthy e.2 = true) :
    ∃ k' v', serEntry e = k' ++ "=" ++ v' ∧ k' ∈ cookieStringKeys ∧
      benignStr v' = true ∧ v' ≠ "" ∧ toCamelCase k' = e.1 ∧
      interpKey k' v' = e.2 := by
  unfold EntryShape at hsh
  rcases hsh with ⟨he, s, hs⟩ | ⟨he, j, hj⟩ | ⟨he, j, hj⟩ | ⟨he, s, hs⟩ |
      ⟨he, s, hsl, hs⟩
  · refine ⟨"ltoken", s, ?_, by decide, hben s hs, ?_, ?_, ?_⟩
    · unfold serEntry
      rw [he, hs]
      rfl
    · rw [hs] at ht
      simpa [truthy] using ht
    · rw [he]
      decide
    · rw [hs]
      rfl
  · cases j with
    | nan => rw [hj] at ht; simp [truthy] at ht
    | val n =>
      refine ⟨"ltuid", jsIntToString n, ?_, by decide, benign_jsIntToString n,
        jsIntToString_ne_empty n, ?_, ?_⟩
      · unfold serEntry
        rw [he, hj]
        rfl
      · rw [he]
        decide
      · unfold interpKey
        rw [if_pos (Or.inl rfl), parseIntJS_jsIntToString, hj]
  · cases j with
    | nan => rw [hj] at ht; simp [truthy] at ht
    | val n =>
      refine ⟨"account_id", jsIntToString n, ?_, by decide,
        benign_jsIntToString n, jsIntToString_ne_empty n, ?_, ?_⟩
      · unfold serEntry
        rw [he, hj]
        rw [if_pos (Or.inr rfl)]
        rfl
      · rw [he]
        decide
      · unfold interpKey
        rw [if_pos (Or.inr rfl), parseIntJS_jsIntToString, hj]
  · refine ⟨"cookie_token", s, ?_, by decide, hben s hs, ?_, ?_, ?_⟩
    · unfold serEntry
      rw [he, hs]
      rw [if_pos (Or.inl rfl)]
      rfl
    · rw [hs] at ht
      simpa [truthy] using ht
    · rw [he]
      decide
    · unfold interpKey
      rw [if_neg (by decide), if_neg (by decide), hs]
  · refine ⟨"mi18nLang", s, ?_, by decide, langCodes_benign s hsl, 
      langCodes_ne_empty s hsl, ?_, ?_⟩
    · unfold serEntry
      rw [he, hs]
      rfl
    · rw [he]
      decide
    · unfold interpKey
      rw [if_neg (by decide), if_pos rfl, parseLang_fix s hsl, hs]

theorem key_no_semi (k : String) (hk : k ∈ cookieStringKeys) :
    ∀ c ∈ k.data, c ≠ ';' := by
  fin_cases hk <;> decide

theorem serEntry_no_semi (e : String × JsVal) (hsh : EntryShape e)
    (hben : ∀ v, e.2 = JsVal.str v → benignStr v = true)
    (ht : truthy e.2 = true) : ∀ c ∈ (serEntry e).data, c ≠ ';' := by
  obtain ⟨k', v', heq, hk, hbv, _, _, _⟩ := serEntry_good e hsh hben ht
  rw [heq]
  intro c hc
  rw [show (k' ++ "=" ++ v').data = k'.data ++ '=' :: v'.data from by
    simp [String.data_append]] at hc
  rcases List.mem_append.mp hc with hc | hc
  · exact key_no_semi k' hk c hc
  · rcases List.mem_cons.mp hc with hc | hc
    · subst hc; decide
    · exact (benignStr_spec v' hbv c hc).1

theorem fold_serialized (es : JsObj) : ∀ obj : JsObj,
    (∀ e ∈ es, EntryShape e) →
    (∀ k v, (k, JsVal.str v) ∈ es → benignStr v = true) →
    ((es.filter (fun e => truthy e.2)).map serEntry).foldlM processPair obj =
      .ok ((es.filter (fun e => truthy e.2)).foldl
        (fun o e => objSet o e.1 e.2) obj) := by
  induction es with
  | nil => intro obj _ _; rfl
  | cons e rest ih =>
    intro obj hsh hben
    by_cases ht : truthy e.2 = true
    · rw [List.filter_cons_of_pos (by simpa using ht)]
      rw [List.map_cons, List.foldlM_cons, List.foldl_cons]
      obtain ⟨k', v', heq, hk, hbv, hne, hcam, hint⟩ :=
        serEntry_good e (hsh e (by simp)) (fun v hv => hben e.1 v (by
          rw [← hv]; simp)) ht
      rw [heq, processPair_benign_pair obj k' v' hk hbv hne, hcam, hint]
      exact ih (objSet obj e.1 e.2) (fun f hf => hsh f (by simp [hf]))
        (fun k v hkv => hben k v (by simp [hkv]))
    · rw [List.filter_cons_of_neg (by simpa using ht)]
      exact ih obj (fun f hf => hsh f (by simp [hf]))
        (fun k v hkv => hben k v (by simp [hkv]))

theorem replay_frame (qs : List (String × JsVal)) : ∀ (obj : JsObj)
    (ck : String), ck ∉ qs.map Prod.fst →
    objGet (qs.foldl (fun o e => objSet o e.1 e.2) obj) ck =
      objGet obj ck := by
  induction qs with
  | nil => intro obj ck _; rfl
  | cons q qs ih =>
    intro obj ck hck
    rw [List.foldl_cons, ih _ ck (fun hm => hck (by simp [hm]))]
    exact objGet_objSet_other _ _ _ _ (fun he => hck (by simp [he]))

theorem filter_keys_sub (es : List (String × JsVal)) (p : String × JsVal → Bool)
    (ck : String) (h : ck ∉ es.map Prod.fst) :
    ck ∉ (es.filter p).map Prod.fst := by
  intro hm
  rcases List.mem_map.mp hm with ⟨e, he, hek⟩
  exact h (List.mem_map.mpr ⟨e, List.mem_of_mem_filter he, hek⟩)

theorem replay_get (es : JsObj) : ∀ (obj : JsObj) (ck : String),
    (es.map Prod.fst).Nodup → truthy (objGet es ck) = true →
    objGet ((es.filter (fun e => truthy e.2)).foldl
      (fun o e => objSet o e.1 e.2) obj) ck = objGet es ck := by
  induction es with
  | nil =>
    intro obj ck _ ht
    simp [objGet_nil, truthy] at ht
  | cons e rest ih =>
    intro obj ck hnd ht
    have hnd2 : (rest.map Prod.fst).Nodup := (List.nodup_cons.mp hnd).2
    have hnotin : e.1 ∉ rest.map Prod.fst := (List.nodup_cons.mp hnd).1
    by_cases hek : e.1 = ck
    · have hval : objGet (e :: rest) ck = e.2 := by
        rw [objGet_cons, if_pos hek]
      rw [hval]
      have hte : truthy e.2 = true := by rw [← hval]; exact ht
      rw [List.filter_cons_of_pos (by simpa using hte), List.foldl_cons]
      rw [replay_frame _ _ ck
        (filter_keys_sub rest _ ck (hek ▸ hnotin))]
      rw [← hek]
      exact objGet_objSet_same obj e.1 e.2
    · have hval : objGet (e :: rest) ck = objGet rest ck := by
        rw [objGet_cons, if_neg hek]
      rw [hval]
      rw [hval] at ht
      by_cases hte : truthy e.2 = true
      · rw [List.filter_cons_of_pos (by simpa using hte), List.foldl_cons]
        exact ih _ ck hnd2 ht
      · rw [List.filter_cons_of_neg (by simpa using hte)]
        exact ih obj ck hnd2 ht

theorem foldlM_space_cons (p0 : String) (qs : List String) (obj : JsObj) :
    (p0 :: qs.map (fun p => " " ++ p)).foldlM processPair obj =
      (p0 :: qs).foldlM processPair obj := by
  rw [List.foldlM_cons, List.foldlM_cons]
  cases processPair obj p0 with
  | error e => rfl
  | ok obj1 => exact foldlM_processPair_space qs obj1

theorem parseCookie_fst (c : JsObj) :
    (parseCookie c).1 =
      if ¬ truthy (objGet c "accountId") then
        objSet c "accountId" (objGet c "ltuid")
      else c := rfl

theorem parseCookie_fst_get (c : JsObj) (k : String)
    (hk : k ≠ "accountId") :
    objGet (parseCookie c).1 k = objGet c k := by
  rw [parseCookie_fst]
  split
  · exact objGet_objSet_other _ _ _ _ (fun he => hk he.symm)
  · rfl

theorem benignVals_objSet (o : JsObj) (k : String) (v : JsVal)
    (ho : BenignVals o) (hv : ∀ s, v = JsVal.str s → benignStr s = true) :
    BenignVals (objSet o k v) := by
  intro k' v' hm
  unfold objSet at hm
  split at hm
  · rcases List.mem_map.mp hm with ⟨f, hf, hfe⟩
    by_cases hfk : f.1 = k
    · rw [if_pos hfk] at hfe
      exact hv v' (congrArg Prod.snd hfe)
    · rw [if_neg hfk] at hfe
      exact ho k' v' (hfe ▸ hf)
  · rcases List.mem_append.mp hm with hm | hm
    · exact ho k' v' hm
    · have heq : (k', JsVal.str v') = (k, v) := by simpa using hm
      exact hv v' (congrArg Prod.snd heq).symm

theorem benignVals_parseCookie (c : JsObj) (ho : BenignVals c) :
    BenignVals (parseCookie c).1 := by
  rw [parseCookie_fst]
  split
  · apply benignVals_objSet _ _ _ ho
    intro s hs
    have hne : objGet c "ltuid" ≠ JsVal.undef := by
      rw [hs]
      intro he
      exact JsVal.noConfusion he
    have hmem := objGet_mem c "ltuid" hne
    rw [hs] at hmem
    exact ho "ltuid" s hmem
  · exact ho

theorem cookieShape_parseCookie (c : JsObj) (h : CookieShape c)
    (ht : truthy (objGet c "ltuid") = true) :
    CookieShape (parseCookie c).1 := by
  rw [parseCookie_fst]
  split
  · obtain ⟨n, hn, _⟩ := shape_get_num c h "ltuid" (Or.inl rfl) ht
    apply cookieShape_objSet _ _ _ h
    unfold EntryShape
    rw [hn]
    exact Or.inr (Or.inr (Or.inl ⟨rfl, .val n, rfl⟩))
  · exact h

theorem roundtrip_core (c' : JsObj) (hsh : CookieShape c')
    (hben : BenignVals c')
    (htol : truthy (objGet c' "ltoken") = true)
    (htui : truthy (objGet c' "ltuid") = true) :
    ∃ c2, parseCookieString (joinSep "; "
        ((c'.filter (fun e => truthy e.2)).map serEntry)) = .ok c2 ∧
      objGet c2 "ltoken" = objGet c' "ltoken" ∧
      objGet c2 "ltuid" = objGet c' "ltuid" := by
  have hne0 : objGet c' "ltoken" ≠ JsVal.undef := by
    intro he
    rw [he] at htol
    simp [truthy] at htol
  have hmemf : ("ltoken", objGet c' "ltoken") ∈
      c'.filter (fun e => truthy e.2) :=
    List.mem_filter.mpr ⟨objGet_mem c' "ltoken" hne0, htol⟩
  obtain ⟨e0, es0, hfes⟩ :
      ∃ e0 es0, c'.filter (fun e => truthy e.2) = e0 :: es0 := by
    cases hfe : c'.filter (fun e => truthy e.2) with
    | nil => rw [hfe] at hmemf; simp at hmemf
    | cons a b => exact ⟨a, b, rfl⟩
  have hnosemi : ∀ p ∈ (c'.filter (fun e => truthy e.2)).map serEntry,
      ∀ ch ∈ p.data, ch ≠ ';' := by
    intro p hp
    rcases List.mem_map.mp hp with ⟨e, he, hpe⟩
    have he1 : e ∈ c' := List.mem_of_mem_filter he
    have he2 : truthy e.2 = true := (List.mem_filter.mp he).2
    rw [← hpe]
    refine serEntry_no_semi e (hsh.1 e he1) (fun v hv => hben e.1 v ?_) he2
    rw [← hv]
    exact he1
  have hmapeq : (c'.filter (fun e => truthy e.2)).map serEntry =
      serEntry e0 :: es0.map serEntry := by
    rw [hfes, List.map_cons]
  have hfold : (splitCh ';' (joinSep "; "
      ((c'.filter (fun e => truthy e.2)).map serEntry))).foldlM
        processPair [] =
      .ok ((c'.filter (fun e => truthy e.2)).foldl
        (fun o e => objSet o e.1 e.2) []) := by
    have h0 : ∀ ch ∈ (serEntry e0).data, ch ≠ ';' :=
      hnosemi (serEntry e0) (by rw [hmapeq]; simp)
    have hrest : ∀ p ∈ es0.map serEntry, ∀ ch ∈ p.data, ch ≠ ';' :=
      fun p hp => hnosemi p (by rw [hmapeq]; exact List.mem_cons_of_mem _ hp)
    rw [hmapeq, splitCh_joinSep (es0.map serEntry) (serEntry e0) h0 hrest,
      foldlM_space_cons, ← List.map_cons serEntry e0 es0, ← hfes]
    exact fold_serialized c' [] hsh.1 hben
  have hrtol : objGet ((c'.filter (fun e => truthy e.2)).foldl
      (fun o e => objSet o e.1 e.2) []) "ltoken" = objGet c' "ltoken" :=
    replay_get c' [] "ltoken" hsh.2 htol
  have hrtui : objGet ((c'.filter (fun e => truthy e.2)).foldl
      (fun o e => objSet o e.1 e.2) []) "ltuid" = objGet c' "ltuid" :=
    replay_get c' [] "ltuid" hsh.2 htui
  obtain ⟨r, hr⟩ : ∃ r, (c'.filter (fun e => truthy e.2)).foldl
      (fun o e => objSet o e.1 e.2) [] = r := ⟨_, rfl⟩
  rw [hr] at hfold hrtol hrtui
  have hd1 : objGet (deriveAccountPair r) "ltoken" = objGet r "ltoken" :=
    deriveAccountPair_get_other r "ltoken" (by decide) (by decide)
  have hd2 : objGet (deriveAccountPair r) "ltuid" = objGet r "ltuid" :=
    deriveAccountPair_get_ltuid_truthy r (by rw [hrtui]; exact htui)
  have hcond : ¬ (¬ truthy (objGet (deriveAccountPair r) "ltoken") = true ∨
      ¬ truthy (objGet (deriveAccountPair r) "ltuid") = true) := by
    intro hcon
    rcases hcon with hx | hx
    · exact hx (by rw [hd1, hrtol]; exact htol)
    · exact hx (by rw [hd2, hrtui]; exact htui)
  refine ⟨deriveAccountPair r, ?_, ?_, ?_⟩
  · rw [parseCookieString_ok_fold _ _ hfold, if_neg hcond]
  · rw [hd1, hrtol]
  · rw [hd2, hrtui]

/-- C5 (amended): for every cookie string that parses successfully and
whose parsed string-valued fields are benign (no `;`, `=`, `%` or JS
whitespace characters), serializing the result with `parseCookie` and
parsing again succeeds and preserves the required fields: the second parse
has the same `ltoken` and the same `ltuid` as the first.  (Without the
benignity restriction the round trip fails, see the counterexample: values
are percent-decoded when parsed but not re-encoded when serialized.) -/
theorem c5_roundtrip (s : String) (c : JsObj)
    (h : parseCookieString s = .ok c) (hb : BenignVals c) :
    ∃ c2, parseCookieString (parseCookie c).2 = .ok c2 ∧
      objGet c2 "ltoken" = objGet c "ltoken" ∧
      objGet c2 "ltuid" = objGet c "ltuid" := by
  obtain ⟨hsh, htol, htui⟩ := parseCookieString_ok_shape s c h
  have hgtol : objGet (parseCookie c).1 "ltoken" = objGet c "ltoken" :=
    parseCookie_fst_get c "ltoken" (by decide)
  have hgtui : objGet (parseCookie c).1 "ltuid" = objGet c "ltuid" :=
    parseCookie_fst_get c "ltuid" (by decide)
  obtain ⟨c2, h1, h2, h3⟩ := roundtrip_core (parseCookie c).1
    (cookieShape_parseCookie c hsh htui)
    (benignVals_parseCookie c hb)
    (by rw [hgtol]; exact htol)
    (by rw [hgtui]; exact htui)
  refine ⟨c2, ?_, ?_, ?_⟩
  · rw [parseCookie_snd]
    exact h1
  · rw [h2, hgtol]
  · rw [h3, hgtui]

theorem c5_roundtrip_witness :
    ∃ c2, parseCookieString (parseCookie [("ltoken", JsVal.str "abc"),
        ("ltuid", JsVal.num (.val 5)), ("accountId", JsVal.num (.val 5))]).2 =
      .ok c2 ∧
    objGet c2 "ltoken" = objGet [("ltoken", JsVal.str "abc"),
      ("ltuid", JsVal.num (.val 5)), ("accountId", JsVal.num (.val 5))]
        "ltoken" ∧
    objGet c2 "ltuid" = objGet [("ltoken", JsVal.str "abc"),
      ("ltuid", JsVal.num (.val 5)), ("accountId", JsVal.num (.val 5))]
        "ltuid" :=
  c5_roundtrip "ltoken=abc; ltuid=5"
    [("ltoken", JsVal.str "abc"), ("ltuid", JsVal.num (.val 5)),
      ("accountId", JsVal.num (.val 5))]
    (by rfl)
    (by
      intro k v hm
      simp only [List.mem_cons, List.not_mem_nil, or_false,
        Prod.mk.injEq] at hm
      rcases hm with ⟨_, hv⟩ | ⟨_, hv⟩ | ⟨_, hv⟩
      · have hv2 : v = "abc" := by injection hv
        rw [hv2]
        decide
      · exact JsVal.noConfusion hv
      · exact JsVal.noConfusion hv)
